import Mathlib

/-!
# Unscented Kalman filter (`src/src/ukf.cpp`)

A shallow embedding of the class `UKF`: its constructor, `ProcessMeasurement`,
`Prediction`, `UpdateLidar` and `UpdateRadar`.

Conventions of the embedding.

* `double` values are elements of an ordered field `α` (exact arithmetic); the
  development is generic in `α`, so every definition runs on `ℚ` and every
  theorem also speaks about `ℝ`.
* The routines of `<cmath>` (`cos`, `sin`, `sqrt`, `atan2`, the constant `M_PI`)
  are the fields of a record `Numerics α`; Eigen's Cholesky factorisation
  `llt().matrixL()` is a function argument `llt`.
* The fields of the object are the fields of the record `UKF α`; a member
  function is a function from the old record to the new one.
* A result `none` stands for a run that leaves exact arithmetic: a division by
  zero (IEEE `inf`/`NaN` is written), the inverse of a singular matrix, or a read
  past the end of `raw_measurements_`.  The C++ functions return `void` and have
  no error channel of their own.
* `n_x_ = 5` and `n_aug_ = 7` fix the dimensions of every vector and matrix and
  are read off the types: `Fin 5`, `Fin 7` and `Fin 15 = 2 * n_aug_ + 1`.
-/

open Matrix

/-! ## Data model -/

/-- Sensor kinds, `MeasurementPackage::SensorType`. -/
inductive SensorType where
  | LASER
  | RADAR
deriving DecidableEq

/-- Modelled from the spec: the input record `MeasurementPackage`, whose header is
not among the sources.  Section 6 of the spec: a sensor type, an integer
timestamp in microseconds and the raw values (two for a direct-position reading,
three for a range/bearing/range-rate reading). -/
structure MeasurementPackage (α : Type) where
  timestamp_ : Int
  sensor_type_ : SensorType
  raw_measurements_ : List α

/-- The routines and the constant of `<cmath>` used by the filter. -/
structure Numerics (α : Type) [LinearOrderedField α] where
  cos : α → α
  sin : α → α
  sqrt : α → α
  atan2 : α → α → α
  M_PI : α
  M_PI_pos : 0 < M_PI

/-- The member variables of class `UKF` that `ukf.cpp` reads or writes. -/
structure UKF (α : Type) where
  is_initialized_ : Bool
  use_laser_ : Bool
  use_radar_ : Bool
  x_ : Fin 5 → α
  P_ : Matrix (Fin 5) (Fin 5) α
  Xsig_pred_ : Matrix (Fin 5) (Fin 15) α
  time_us_ : Int
  std_a_ : α
  std_yawdd_ : α
  std_laspx_ : α
  std_laspy_ : α
  std_radr_ : α
  std_radphi_ : α
  std_radrd_ : α
  weights_ : Fin 15 → α
  lambda_ : α
  Rlidar_ : Matrix (Fin 2) (Fin 2) α
  Rradar_ : Matrix (Fin 3) (Fin 3) α

/-- Storage that the constructor allocates or leaves without writing it:
`VectorXd(5)`, `MatrixXd(r, c)` do not initialise their coefficients and
`time_us_` is not assigned before the first measurement. -/
structure Uninit (α : Type) where
  x : Fin 5 → α
  P : Matrix (Fin 5) (Fin 5) α
  Xsig_pred : Matrix (Fin 5) (Fin 15) α
  time_us : Int
  Rlidar : Matrix (Fin 2) (Fin 2) α
  Rradar : Matrix (Fin 3) (Fin 3) α

section Embedding

variable {α : Type} [LinearOrderedField α]

/-- The dimension of the augmented state, `n_aug_ = 7` (line 61). -/
def n_aug_ : α := 7

/-- The assignment `M(i, j) = v` to one coefficient of a matrix. -/
def setCoeff {r c : Nat} (M : Matrix (Fin r) (Fin c) α) (i : Fin r) (j : Fin c) (v : α) :
    Matrix (Fin r) (Fin c) α :=
  fun a b => if a = i ∧ b = j then v else M a b

/-- The call `M.fill(v)`. -/
def fill {r c : Nat} (v : α) : Matrix (Fin r) (Fin c) α :=
  fun _ _ => v

/-- The constructor `UKF::UKF()` (lines 10-78); `u` is the content of the storage
it does not write. -/
def UKF.ctor (u : Uninit α) : UKF α :=
  let std_laspx_ : α := 15 / 100
  let std_laspy_ : α := 15 / 100
  let std_radr_ : α := 3 / 10
  let std_radphi_ : α := 3 / 100
  let std_radrd_ : α := 3 / 10
  let lambda_ : α := 3 - n_aug_
  { is_initialized_ := false
    use_laser_ := true
    use_radar_ := true
    x_ := u.x
    P_ := u.P
    Xsig_pred_ := u.Xsig_pred
    time_us_ := u.time_us
    std_a_ := 3
    std_yawdd_ := 2
    std_laspx_ := std_laspx_
    std_laspy_ := std_laspy_
    std_radr_ := std_radr_
    std_radphi_ := std_radphi_
    std_radrd_ := std_radrd_
    lambda_ := lambda_
    weights_ := Function.update (fun _ => (1 / 2) / (lambda_ + n_aug_)) 0
      (lambda_ / (lambda_ + n_aug_))
    Rlidar_ := setCoeff (setCoeff u.Rlidar 0 0 (std_laspx_ * std_laspx_)) 1 1
      (std_laspy_ * std_laspy_)
    Rradar_ := setCoeff (setCoeff (setCoeff u.Rradar 0 0 (std_radr_ * std_radr_)) 1 1
      (std_radphi_ * std_radphi_)) 2 2 (std_radrd_ * std_radrd_) }


/-! ## Angle wrapping -/

/-- The loop `while (a > M_PI) a -= 2 * M_PI;` (lines 217, 267, 324, 336, 340, 351). -/
def wrapDown [FloorRing α] (m : Numerics α) (a : α) : α :=
  if a > m.M_PI then wrapDown m (a - 2 * m.M_PI) else a
termination_by Int.toNat ⌈(a - m.M_PI) / (2 * m.M_PI)⌉
decreasing_by
  rename_i h
  have hpi := m.M_PI_pos
  have h1 : (a - 2 * m.M_PI - m.M_PI) / (2 * m.M_PI) = (a - m.M_PI) / (2 * m.M_PI) - 1 := by
    field_simp
    ring
  have h2 : 0 < ⌈(a - m.M_PI) / (2 * m.M_PI)⌉ :=
    Int.ceil_pos.mpr (div_pos (sub_pos.mpr h) (by linarith))
  rw [h1, Int.ceil_sub_one]
  omega

/-- The loop `while (a < -M_PI) a += 2 * M_PI;` (lines 218, 268, 325, 337, 341, 352). -/
def wrapUp [FloorRing α] (m : Numerics α) (a : α) : α :=
  if a < -m.M_PI then wrapUp m (a + 2 * m.M_PI) else a
termination_by Int.toNat ⌈(-m.M_PI - a) / (2 * m.M_PI)⌉
decreasing_by
  rename_i h
  have hpi := m.M_PI_pos
  have h1 : (-m.M_PI - (a + 2 * m.M_PI)) / (2 * m.M_PI) = (-m.M_PI - a) / (2 * m.M_PI) - 1 := by
    field_simp
    ring
  have h2 : 0 < ⌈(-m.M_PI - a) / (2 * m.M_PI)⌉ :=
    Int.ceil_pos.mpr (div_pos (by linarith) (by linarith))
  rw [h1, Int.ceil_sub_one]
  omega

/-- The two loops in sequence: the angle normalisation applied to an angle
difference. -/
def wrapAngle [FloorRing α] (m : Numerics α) (a : α) : α :=
  wrapUp m (wrapDown m a)

/-- The statements `d(k) = wrap(d(k))` on one component of a difference vector. -/
def wrapComponent [FloorRing α] {n : Nat} (m : Numerics α) (k : Fin n) (d : Fin n → α) : Fin n → α :=
  Function.update d k (wrapAngle m (d k))

/-! ## Shared numerical steps -/

/-- The division of two doubles; `none` when the divisor is zero. -/
def fdiv (a b : α) : Option α :=
  if b = 0 then none else some (a / b)

/-- Eigen's `S.inverse()`; `none` when `S` is singular. -/
def inverse {n : Nat} (S : Matrix (Fin n) (Fin n) α) : Option (Matrix (Fin n) (Fin n) α) :=
  if S.det = 0 then none else some (S.det⁻¹ • S.adjugate)

/-- A matrix assembled column by column, each column being the result of a
computation that may fail. -/
def columns {n k : Nat} (f : Fin k → Option (Fin n → α)) : Option (Matrix (Fin n) (Fin k) α) :=
  if h : ∀ j, (f j).isSome = true then some (fun i j => (f j).get (h j) i) else none

/-- The loops `v.fill(0.0); for i: v += weights_(i) * M.col(i)` (lines 208-211,
245-248, 314-317). -/
def weightedMean {n : Nat} (w : Fin 15 → α) (M : Matrix (Fin n) (Fin 15) α) : Fin n → α :=
  fun k => ∑ i, w i * M k i

/-- The loops `C.fill(0.0); for i: C += weights_(i) * a_i * b_i.transpose()`
(lines 213-221, 252-256, 262-271, 321-327, 333-344). -/
def weightedOuter {r c : Nat} (w : Fin 15 → α) (a : Fin 15 → Fin r → α)
    (b : Fin 15 → Fin c → α) : Matrix (Fin r) (Fin c) α :=
  ∑ i, w i • vecMulVec (a i) (b i)

/-- The difference `Xsig_pred_.col(i) - x_` with its heading component (index 3)
wrapped (lines 215-218, 265-268, 339-341). -/
def stateDiff [FloorRing α] (m : Numerics α) (Xsig_pred : Matrix (Fin 5) (Fin 15) α)
    (x : Fin 5 → α) (i : Fin 15) : Fin 5 → α :=
  wrapComponent m 3 (fun k => Xsig_pred k i - x k)

/-! ## Prediction -/

/-- Lines 142-145: the state mean followed by two zeros. -/
def augmentedMean (x : Fin 5 → α) : Fin 7 → α :=
  fun k => if h : k.val < 5 then x ⟨k.val, h⟩ else 0

/-- Lines 147-151: `P_` in the top-left corner, the two process-noise variances on
the diagonal below it, zero elsewhere. -/
def augmentedCovariance (P : Matrix (Fin 5) (Fin 5) α) (std_a std_yawdd : α) :
    Matrix (Fin 7) (Fin 7) α :=
  let withP : Matrix (Fin 7) (Fin 7) α :=
    fun r c => if h : r.val < 5 ∧ c.val < 5 then P ⟨r.val, h.1⟩ ⟨c.val, h.2⟩ else 0
  setCoeff (setCoeff withP 5 5 (std_a * std_a)) 6 6 (std_yawdd * std_yawdd)

/-- Lines 154-161: the fifteen augmented sigma points built from the augmented
mean and the factor `A`. -/
def augmentedSigmaPoints (m : Numerics α) (lambda_ : α) (x_aug : Fin 7 → α)
    (A : Matrix (Fin 7) (Fin 7) α) : Matrix (Fin 7) (Fin 15) α :=
  let c1 := m.sqrt (lambda_ + n_aug_)
  fun k j =>
    if j.val = 0 then x_aug k
    else if h1 : j.val ≤ 7 then x_aug k + c1 * A k ⟨j.val - 1, by omega⟩
    else x_aug k - c1 * A k ⟨j.val - 8, by omega⟩

/-- Lines 166-203: the body of the propagation loop for one augmented sigma
point `p`. -/
def predictSigmaPoint (m : Numerics α) (delta_t : α) (p : Fin 7 → α) : Option (Fin 5 → α) :=
  let p_x := p 0
  let p_y := p 1
  let v := p 2
  let yaw := p 3
  let yawd := p 4
  let nu_a := p 5
  let nu_yawdd := p 6
  let position : Option (α × α) :=
    if |yawd| > 1 / 1000 then
      (fdiv v yawd).map fun q =>
        (p_x + q * (m.sin (yaw + yawd * delta_t) - m.sin yaw),
          p_y + q * (m.cos yaw - m.cos (yaw + yawd * delta_t)))
    else
      some (p_x + v * delta_t * m.cos yaw, p_y + v * delta_t * m.sin yaw)
  position.map fun pos =>
    let v_p := v
    let yaw_p := yaw + yawd * delta_t
    let yawd_p := yawd
    let px_p := pos.1 + 1 / 2 * nu_a * delta_t * delta_t * m.cos yaw
    let py_p := pos.2 + 1 / 2 * nu_a * delta_t * delta_t * m.sin yaw
    let v_p := v_p + nu_a * delta_t
    let yaw_p := yaw_p + 1 / 2 * nu_yawdd * delta_t * delta_t
    let yawd_p := yawd_p + nu_yawdd * delta_t
    ![px_p, py_p, v_p, yaw_p, yawd_p]

/-- The member function `UKF::Prediction` (lines 134-222). -/
def UKF.Prediction [FloorRing α] (m : Numerics α)
    (llt : Matrix (Fin 7) (Fin 7) α → Matrix (Fin 7) (Fin 7) α) (s : UKF α) (delta_t : α) :
    Option (UKF α) :=
  let x_aug := augmentedMean s.x_
  let P_aug := augmentedCovariance s.P_ s.std_a_ s.std_yawdd_
  let A := llt P_aug
  let Xsig_aug := augmentedSigmaPoints m s.lambda_ x_aug A
  (columns fun i => predictSigmaPoint m delta_t (fun k => Xsig_aug k i)).map fun Xsig_pred =>
    let x := weightedMean s.weights_ Xsig_pred
    let P := weightedOuter s.weights_ (stateDiff m Xsig_pred x) (stateDiff m Xsig_pred x)
    { s with Xsig_pred_ := Xsig_pred, x_ := x, P_ := P }

/-! ## Update with a direct-position measurement -/

/-- Lines 238-242: rows 0 and 1 of the predicted sigma points. -/
def lidarZsig (Xsig_pred : Matrix (Fin 5) (Fin 15) α) : Matrix (Fin 2) (Fin 15) α :=
  fun k i => ![Xsig_pred 0 i, Xsig_pred 1 i] k

/-- Lines 251-258: the predicted measurement covariance `S` of `UpdateLidar`. -/
def lidarS (s : UKF α) : Matrix (Fin 2) (Fin 2) α :=
  let Zsig := lidarZsig s.Xsig_pred_
  let z_pred := weightedMean s.weights_ Zsig
  let z_diff : Fin 15 → Fin 2 → α := fun i k => Zsig k i - z_pred k
  weightedOuter s.weights_ z_diff z_diff + s.Rlidar_

/-- Lines 261-271: the cross-correlation matrix `Tc` of `UpdateLidar`. -/
def lidarTc [FloorRing α] (m : Numerics α) (s : UKF α) : Matrix (Fin 5) (Fin 2) α :=
  let Zsig := lidarZsig s.Xsig_pred_
  let z_pred := weightedMean s.weights_ Zsig
  let z_diff : Fin 15 → Fin 2 → α := fun i k => Zsig k i - z_pred k
  weightedOuter s.weights_ (stateDiff m s.Xsig_pred_ s.x_) z_diff

/-- The member function `UKF::UpdateLidar` (lines 224-279). -/
def UKF.UpdateLidar [FloorRing α] (m : Numerics α) (s : UKF α) (meas_package : MeasurementPackage α) :
    Option (UKF α) := do
  let z0 ← meas_package.raw_measurements_[0]?
  let z1 ← meas_package.raw_measurements_[1]?
  let z : Fin 2 → α := ![z0, z1]
  let z_pred := weightedMean s.weights_ (lidarZsig s.Xsig_pred_)
  let S := lidarS s
  let Tc := lidarTc m s
  let Sinv ← inverse S
  let K := Tc * Sinv
  some { s with x_ := s.x_ + K.mulVec (z - z_pred), P_ := s.P_ - K * S * Kᵀ }

/-! ## Update with a range/bearing/range-rate measurement -/

/-- Lines 299-310: the measurement model applied to one predicted sigma point. -/
def radarPoint (m : Numerics α) (p : Fin 5 → α) : Option (Fin 3 → α) :=
  let p_x := p 0
  let p_y := p 1
  let v := p 2
  let yaw := p 3
  let v1 := m.cos yaw * v
  let v2 := m.sin yaw * v
  (fdiv (p_x * v1 + p_y * v2) (m.sqrt (p_x * p_x + p_y * p_y))).map fun r_dot =>
    ![m.sqrt (p_x * p_x + p_y * p_y), m.atan2 p_y p_x, r_dot]

/-- Lines 296-311: the sigma points in measurement space. -/
def radarZsig (m : Numerics α) (Xsig_pred : Matrix (Fin 5) (Fin 15) α) :
    Option (Matrix (Fin 3) (Fin 15) α) :=
  columns fun i => radarPoint m (fun k => Xsig_pred k i)

/-- The difference `Zsig.col(i) - z_pred` with its bearing component (index 1)
wrapped (lines 323-325, 335-337). -/
def radarDiff [FloorRing α] (m : Numerics α) (Zsig : Matrix (Fin 3) (Fin 15) α)
    (z_pred : Fin 3 → α) (i : Fin 15) : Fin 3 → α :=
  wrapComponent m 1 (fun k => Zsig k i - z_pred k)

/-- Lines 320-329: the predicted measurement covariance `S` of `UpdateRadar`. -/
def radarS [FloorRing α] (m : Numerics α) (s : UKF α) (Zsig : Matrix (Fin 3) (Fin 15) α) :
    Matrix (Fin 3) (Fin 3) α :=
  let z_pred := weightedMean s.weights_ Zsig
  weightedOuter s.weights_ (radarDiff m Zsig z_pred) (radarDiff m Zsig z_pred) + s.Rradar_

/-- Lines 332-344: the cross-correlation matrix `Tc` of `UpdateRadar`. -/
def radarTc [FloorRing α] (m : Numerics α) (s : UKF α) (Zsig : Matrix (Fin 3) (Fin 15) α) :
    Matrix (Fin 5) (Fin 3) α :=
  let z_pred := weightedMean s.weights_ Zsig
  weightedOuter s.weights_ (stateDiff m s.Xsig_pred_ s.x_) (radarDiff m Zsig z_pred)

/-- The member function `UKF::UpdateRadar` (lines 281-355). -/
def UKF.UpdateRadar [FloorRing α] (m : Numerics α) (s : UKF α) (meas_package : MeasurementPackage α) :
    Option (UKF α) := do
  let z0 ← meas_package.raw_measurements_[0]?
  let z1 ← meas_package.raw_measurements_[1]?
  let z2 ← meas_package.raw_measurements_[2]?
  let z : Fin 3 → α := ![z0, z1, z2]
  let Zsig ← radarZsig m s.Xsig_pred_
  let z_pred := weightedMean s.weights_ Zsig
  let S := radarS m s Zsig
  let Tc := radarTc m s Zsig
  let Sinv ← inverse S
  let K := Tc * Sinv
  let z_diff := wrapComponent m 1 (z - z_pred)
  some { s with x_ := s.x_ + K.mulVec z_diff, P_ := s.P_ - K * S * Kᵀ }

/-! ## Orchestration -/

/-- Lines 88-118: the state written by the first measurement. -/
def UKF.firstMeasurement (m : Numerics α) (s : UKF α) (meas_package : MeasurementPackage α) :
    Option (UKF α) :=
  match meas_package.sensor_type_ with
  | SensorType.LASER => do
    let z0 ← meas_package.raw_measurements_[0]?
    let z1 ← meas_package.raw_measurements_[1]?
    let P : Matrix (Fin 5) (Fin 5) α := fill 0
    let P := setCoeff P 0 0 (s.std_laspx_ * s.std_laspx_)
    let P := setCoeff P 1 1 (s.std_laspy_ * s.std_laspy_)
    let P := setCoeff P 2 2 1
    let P := setCoeff P 3 3 1
    let P := setCoeff P 4 4 1
    some { s with x_ := ![z0, z1, 0, 0, 0], P_ := P }
  | SensorType.RADAR => do
    let rho ← meas_package.raw_measurements_[0]?
    let phi ← meas_package.raw_measurements_[1]?
    let rho_dot ← meas_package.raw_measurements_[2]?
    let p_x := rho * m.cos phi
    let p_y := rho * m.sin phi
    let P : Matrix (Fin 5) (Fin 5) α := fill 0
    let P := setCoeff P 0 0 (s.std_radr_ * s.std_radr_)
    let P := setCoeff P 1 1 (s.std_radphi_ * s.std_radphi_)
    let P := setCoeff P 2 2 (s.std_radrd_ * s.std_radrd_)
    let P := setCoeff P 3 3 1
    let P := setCoeff P 4 4 1
    some { s with x_ := ![p_x, p_y, rho_dot, phi, 0], P_ := P }

/-- The member function `UKF::ProcessMeasurement` (lines 82-132). -/
def UKF.ProcessMeasurement [FloorRing α] (m : Numerics α)
    (llt : Matrix (Fin 7) (Fin 7) α → Matrix (Fin 7) (Fin 7) α) (s : UKF α)
    (meas_package : MeasurementPackage α) : Option (UKF α) :=
  if !s.is_initialized_ then
    (UKF.firstMeasurement m s meas_package).map fun s1 =>
      { s1 with is_initialized_ := true, time_us_ := meas_package.timestamp_ }
  else
    let dt : α := ((meas_package.timestamp_ - s.time_us_ : Int) : α) / 1000000
    let s1 := { s with time_us_ := meas_package.timestamp_ }
    (UKF.Prediction m llt s1 dt).bind fun s2 =>
      if meas_package.sensor_type_ = SensorType.LASER ∧ s2.use_laser_ = true then
        UKF.UpdateLidar m s2 meas_package
      else if meas_package.sensor_type_ = SensorType.RADAR ∧ s2.use_radar_ = true then
        UKF.UpdateRadar m s2 meas_package
      else
        some s2

end Embedding


/-! ## Reference: the update of the linear Kalman filter -/

section Reference

variable {α : Type} [LinearOrderedField α]

/-- The observation matrix `H = [I_2 | 0]` of the direct-position sensor. -/
def lidarH : Matrix (Fin 2) (Fin 5) α :=
  fun i j => if j.val = i.val then 1 else 0

/-- The update of the linear Kalman filter with observation matrix `H` and noise
`R`: `S = H P H^T + R`, `K = P H^T S^-1`, new mean `x + K (z - H x)`, new covariance
`P - K S K^T`. -/
def linearKalmanUpdate {n k : Nat} (H : Matrix (Fin k) (Fin n) α) (R : Matrix (Fin k) (Fin k) α)
    (x : Fin n → α) (P : Matrix (Fin n) (Fin n) α) (z : Fin k → α) :
    Option ((Fin n → α) × Matrix (Fin n) (Fin n) α) :=
  let S := H * P * Hᵀ + R
  (inverse S).map fun Sinv =>
    let K := P * Hᵀ * Sinv
    (x + K.mulVec (z - H.mulVec x), P - K * S * Kᵀ)

end Reference

/-! ## Concrete states

States of an initialized filter, each built on the constructor.  In
`headingState`, `junkNoiseState` and `steadyState` the mean `x_` is the weighted
mean of the columns of `Xsig_pred_`, as it is after a call of `Prediction`. -/

section States

variable {α : Type} [LinearOrderedField α]

/-- Heading `3`; the sigma points 1 and 8 are the mean displaced by
`+[1, 0, 0, 1, 0]` and `-[1, 0, 0, 1, 0]`, the other thirteen are the mean; `P_`
is the weighted covariance of these points. -/
def headingState : UKF α :=
  { UKF.ctor ⟨0, 0, 0, 0, 0, 0⟩ with
    is_initialized_ := true
    x_ := ![0, 0, 0, 3, 0]
    P_ := (1 / 3 : α) • vecMulVec ![1, 0, 0, 1, 0] ![1, 0, 0, 1, 0]
    Xsig_pred_ := fun k i =>
      if i = 1 then ![1, 0, 0, 4, 0] k else if i = 8 then ![-1, 0, 0, 2, 0] k
      else ![0, 0, 0, 3, 0] k }

/-- The constructor has found the value `1` in the storage of `Rlidar_(0, 1)` and
`0` in that of `Rlidar_(1, 0)`; the mean is zero, the sigma points 1, 8 and 2, 9
are displaced by one unit along `x` and along `y`; `P_` is the weighted
covariance of these points. -/
def junkNoiseState : UKF α :=
  { UKF.ctor ⟨0, 0, 0, 0, !![0, 1; 0, 0], 0⟩ with
    is_initialized_ := true
    x_ := ![0, 0, 0, 0, 0]
    P_ := Matrix.diagonal ![1 / 3, 1 / 3, 0, 0, 0]
    Xsig_pred_ := fun k i =>
      if i = 1 then ![1, 0, 0, 0, 0] k else if i = 8 then ![-1, 0, 0, 0, 0] k
      else if i = 2 then ![0, 1, 0, 0, 0] k else if i = 9 then ![0, -1, 0, 0, 0] k
      else 0 }

/-- All fifteen sigma points are the mean `[1, 0, 0, 0, 0]` and `P_` is zero. -/
def steadyState : UKF α :=
  { UKF.ctor ⟨0, 0, 0, 0, 0, 0⟩ with
    is_initialized_ := true
    x_ := ![1, 0, 0, 0, 0]
    P_ := 0
    Xsig_pred_ := fun k _ => ![1, 0, 0, 0, 0] k }

/-- A lower-triangular matrix with positive diagonal `e/c, e/c, e/c, pi/c, e/c` (with
`e = 1/1000`, `c = sqrt 3`) followed by `sa, sy`, and with `pi/c` in the columns 0, 1, 2
of its heading row. -/
def turnFactor (m : Numerics α) (sa sy : α) : Matrix (Fin 7) (Fin 7) α :=
  fun r c =>
    if r = 3 ∧ c.val ≤ 3 then m.M_PI / m.sqrt 3
    else if r = c then (if r = 5 then sa else if r = 6 then sy else 1 / 1000 / m.sqrt 3)
    else 0

/-- A filter moving along `x` with speed `3` whose covariance is the top-left
block of `turnFactor * turnFactor^T`; the process noise is `sa`, `sy`. -/
def turnState (m : Numerics α) (sa sy : α) : UKF α :=
  { UKF.ctor ⟨0, 0, 0, 0, 0, 0⟩ with
    is_initialized_ := true
    std_a_ := sa
    std_yawdd_ := sy
    x_ := ![0, 0, 3, 0, 0]
    P_ := fun i j => (turnFactor m sa sy * (turnFactor m sa sy)ᵀ)
      (Fin.castLE (by omega) i) (Fin.castLE (by omega) j) }

/-- Position `[1, 0]`, speed `1`, heading `0`.  The sigma points 1 to 7 are the mean
displaced by `+[0, 0, 3, pi, 0]`, the sigma points 8 to 14 by `-[0, 0, 3, pi, 0]`; `x_`
is the weighted mean and `P_` the weighted covariance of these points. -/
def reversalState (m : Numerics α) : UKF α :=
  { UKF.ctor ⟨0, 0, 0, 0, 0, 0⟩ with
    is_initialized_ := true
    x_ := ![1, 0, 1, 0, 0]
    P_ := (7 / 3 : α) • vecMulVec ![0, 0, 3, m.M_PI, 0] ![0, 0, 3, m.M_PI, 0]
    Xsig_pred_ := fun k i =>
      if i = 0 then ![1, 0, 1, 0, 0] k
      else if i.val ≤ 7 then ![1, 0, 4, m.M_PI, 0] k else ![1, 0, -2, -m.M_PI, 0] k }

end States

section Lemmas

variable {α : Type} [LinearOrderedField α] [FloorRing α]

/-! ## Facts about the angle loops -/

theorem wrapDown_of_le (m : Numerics α) (a : α) (h : a ≤ m.M_PI) : wrapDown m a = a := by
  rw [wrapDown, if_neg (not_lt.mpr h)]

theorem wrapUp_of_ge (m : Numerics α) (a : α) (h : -m.M_PI ≤ a) : wrapUp m a = a := by
  rw [wrapUp, if_neg (not_lt.mpr h)]

theorem wrapDown_le (m : Numerics α) (a : α) : wrapDown m a ≤ m.M_PI := by
  induction a using wrapDown.induct m with
  | case1 a h ih => rw [wrapDown, if_pos h]; exact ih
  | case2 a h => rw [wrapDown, if_neg h]; exact not_lt.mp h

theorem wrapUp_ge (m : Numerics α) (a : α) : -m.M_PI ≤ wrapUp m a := by
  induction a using wrapUp.induct m with
  | case1 a h ih => rw [wrapUp, if_pos h]; exact ih
  | case2 a h => rw [wrapUp, if_neg h]; exact not_lt.mp h

theorem wrapUp_le (m : Numerics α) (a : α) (ha : a ≤ m.M_PI) : wrapUp m a ≤ m.M_PI := by
  induction a using wrapUp.induct m with
  | case1 a h ih =>
    rw [wrapUp, if_pos h]
    exact ih (by have := m.M_PI_pos; linarith)
  | case2 a h => rw [wrapUp, if_neg h]; exact ha

theorem wrapAngle_mem (m : Numerics α) (a : α) :
    -m.M_PI ≤ wrapAngle m a ∧ wrapAngle m a ≤ m.M_PI :=
  ⟨wrapUp_ge m _, wrapUp_le m _ (wrapDown_le m a)⟩

theorem wrapAngle_of_mem (m : Numerics α) (a : α) (h1 : -m.M_PI ≤ a) (h2 : a ≤ m.M_PI) :
    wrapAngle m a = a := by
  rw [wrapAngle, wrapDown_of_le m a h2, wrapUp_of_ge m a h1]

theorem wrapAngle_zero (m : Numerics α) : wrapAngle m 0 = 0 :=
  wrapAngle_of_mem m 0 (by have := m.M_PI_pos; linarith) m.M_PI_pos.le

/-! ## Facts about the shared steps -/

omit [LinearOrderedField α] [FloorRing α] in
theorem columns_eq_some {n k : Nat} (f : Fin k → Option (Fin n → α)) (g : Fin k → Fin n → α)
    (h : ∀ j, f j = some (g j)) : columns f = some (fun i j => g j i) := by
  have hs : ∀ j, (f j).isSome = true := fun j => by rw [h j]; rfl
  rw [columns, dif_pos hs]
  congr 1
  funext i j
  exact congrFun (Option.some_injective _ ((Option.some_get _).trans (h j))) i

omit [FloorRing α] in
theorem fdiv_of_ne (a b : α) (h : b ≠ 0) : fdiv a b = some (a / b) := by
  rw [fdiv, if_neg h]

omit [FloorRing α] in
theorem initialCovariance_eq (a b c : α) :
    setCoeff (setCoeff (setCoeff (setCoeff (setCoeff (fill 0 : Matrix (Fin 5) (Fin 5) α)
      0 0 a) 1 1 b) 2 2 c) 3 3 1) 4 4 1 = Matrix.diagonal ![a, b, c, 1, 1] := by
  ext i j
  fin_cases i <;> fin_cases j <;> simp [setCoeff, fill, Matrix.diagonal]

omit [FloorRing α] in
/-- The propagation of one sigma point never divides by zero: the quotient
`v / yawd` is formed only under the guard `fabs(yawd) > 0.001`. -/
theorem predictSigmaPoint_isSome (m : Numerics α) (delta_t : α) (p : Fin 7 → α) :
    ∃ q, predictSigmaPoint m delta_t p = some q := by
  by_cases h : |p 4| > 1 / 1000
  · have hne : p 4 ≠ 0 := by
      intro h0
      rw [h0, abs_zero] at h
      norm_num at h
    simp only [predictSigmaPoint, if_pos h, fdiv_of_ne _ _ hne, Option.map_some']
    exact ⟨_, rfl⟩
  · simp only [predictSigmaPoint, if_neg h, Option.map_some']
    exact ⟨_, rfl⟩

/-- The member function `Prediction` returns for every state and every time step. -/
theorem Prediction_isSome (m : Numerics α)
    (llt : Matrix (Fin 7) (Fin 7) α → Matrix (Fin 7) (Fin 7) α) (s : UKF α) (delta_t : α) :
    ∃ p, UKF.Prediction m llt s delta_t = some p := by
  choose g hg using fun q : Fin 7 → α => predictSigmaPoint_isSome m delta_t q
  exact ⟨_, by rw [UKF.Prediction]; simp only [columns_eq_some _ _ (fun j => hg _)]; rfl⟩

/-- The member function `Prediction` neither reads nor writes `time_us_`. -/
theorem Prediction_time_us (m : Numerics α)
    (llt : Matrix (Fin 7) (Fin 7) α → Matrix (Fin 7) (Fin 7) α) (s : UKF α) (delta_t : α)
    (t : Int) :
    UKF.Prediction m llt { s with time_us_ := t } delta_t =
      (UKF.Prediction m llt s delta_t).map fun p => { p with time_us_ := t } := by
  simp only [UKF.Prediction, Option.map_map]
  rfl

/-- The member function `Prediction` writes `x_`, `P_` and `Xsig_pred_` only. -/
theorem Prediction_frame (m : Numerics α)
    (llt : Matrix (Fin 7) (Fin 7) α → Matrix (Fin 7) (Fin 7) α) (s p : UKF α) (delta_t : α)
    (h : UKF.Prediction m llt s delta_t = some p) :
    p = { s with x_ := p.x_, P_ := p.P_, Xsig_pred_ := p.Xsig_pred_ } := by
  simp only [UKF.Prediction, Option.map_eq_some'] at h
  obtain ⟨X, -, rfl⟩ := h
  rfl

/-! ## Facts about the two updates -/

theorem sum_fifteen {β : Type} [AddCommMonoid β] (f : Fin 15 → β) :
    ∑ i, f i = f 0 + f 1 + f 2 + f 3 + f 4 + f 5 + f 6 + f 7 + f 8 + f 9 + f 10 + f 11 + f 12
      + f 13 + f 14 := by
  simp only [Fin.sum_univ_succ, Fin.sum_univ_zero, add_zero, add_assoc]
  rfl

omit [FloorRing α] in
theorem inverse_of_det_ne_zero {n : Nat} (S : Matrix (Fin n) (Fin n) α) (h : S.det ≠ 0) :
    inverse S = some S⁻¹ := by
  rw [inverse, if_neg h, Matrix.inv_def, Ring.inverse_eq_inv']

/-- What `UpdateLidar` returns on a two-valued measurement when `S` is invertible. -/
theorem UpdateLidar_eq_some (m : Numerics α) (s : UKF α) (t : Int) (ty : SensorType) (a b : α)
    (h : (lidarS s).det ≠ 0) :
    UKF.UpdateLidar m s ⟨t, ty, [a, b]⟩ = some { s with
      x_ := s.x_ + (lidarTc m s * (lidarS s)⁻¹).mulVec
        (![a, b] - weightedMean s.weights_ (lidarZsig s.Xsig_pred_))
      P_ := s.P_ - lidarTc m s * (lidarS s)⁻¹ * lidarS s * (lidarTc m s * (lidarS s)⁻¹)ᵀ } := by
  simp [UKF.UpdateLidar, inverse_of_det_ne_zero _ h]

/-- What `UpdateRadar` returns on a three-valued measurement when no predicted
sigma point has range zero and `S` is invertible. -/
theorem UpdateRadar_eq_some (m : Numerics α) (s : UKF α) (t : Int) (ty : SensorType)
    (a b c : α) (Z : Matrix (Fin 3) (Fin 15) α) (hZ : radarZsig m s.Xsig_pred_ = some Z)
    (h : (radarS m s Z).det ≠ 0) :
    UKF.UpdateRadar m s ⟨t, ty, [a, b, c]⟩ = some { s with
      x_ := s.x_ + (radarTc m s Z * (radarS m s Z)⁻¹).mulVec
        (wrapComponent m 1 (![a, b, c] - weightedMean s.weights_ Z))
      P_ := s.P_ - radarTc m s Z * (radarS m s Z)⁻¹ * radarS m s Z *
        (radarTc m s Z * (radarS m s Z)⁻¹)ᵀ } := by
  simp [UKF.UpdateRadar, hZ, inverse_of_det_ne_zero _ h]

omit [FloorRing α] in
theorem weightedOuter_transpose {r c : Nat} (w : Fin 15 → α) (a : Fin 15 → Fin r → α)
    (b : Fin 15 → Fin c → α) : (weightedOuter w a b)ᵀ = weightedOuter w b a := by
  ext i j
  simp [weightedOuter, Matrix.sum_apply, Matrix.vecMulVec_apply, mul_comm]

omit [FloorRing α] in
theorem gain_form_symm {r c : Nat} (K : Matrix (Fin r) (Fin c) α) (S : Matrix (Fin c) (Fin c) α)
    (hS : Sᵀ = S) : (K * S * Kᵀ)ᵀ = K * S * Kᵀ := by
  rw [Matrix.transpose_mul, Matrix.transpose_mul, Matrix.transpose_transpose, hS,
    Matrix.mul_assoc]

/-- The covariance written by `Prediction` is symmetric, for every state and every
time step. -/
theorem Prediction_P_symm (m : Numerics α)
    (llt : Matrix (Fin 7) (Fin 7) α → Matrix (Fin 7) (Fin 7) α) (s : UKF α) (delta_t : α) :
    ∃ p, UKF.Prediction m llt s delta_t = some p ∧ p.P_ᵀ = p.P_ := by
  obtain ⟨p, hp⟩ := Prediction_isSome m llt s delta_t
  refine ⟨p, hp, ?_⟩
  simp only [UKF.Prediction, Option.map_eq_some'] at hp
  obtain ⟨X, -, rfl⟩ := hp
  exact weightedOuter_transpose _ _ _

/-- The covariance written by `UpdateLidar` is symmetric when the predicted
covariance and the noise matrix `Rlidar_` are. -/
theorem UpdateLidar_P_symm (m : Numerics α) (s : UKF α) (t : Int) (ty : SensorType) (a b : α)
    (h : (lidarS s).det ≠ 0) (hP : s.P_ᵀ = s.P_) (hR : s.Rlidar_ᵀ = s.Rlidar_) :
    ∃ r, UKF.UpdateLidar m s ⟨t, ty, [a, b]⟩ = some r ∧ r.P_ᵀ = r.P_ := by
  refine ⟨_, UpdateLidar_eq_some m s t ty a b h, ?_⟩
  have hS : (lidarS s)ᵀ = lidarS s := by
    simp only [lidarS, Matrix.transpose_add, weightedOuter_transpose, hR]
  simp only [Matrix.transpose_sub, hP, gain_form_symm _ _ hS]

/-- The covariance written by `UpdateRadar` is symmetric when the predicted
covariance and the noise matrix `Rradar_` are. -/
theorem UpdateRadar_P_symm (m : Numerics α) (s : UKF α) (t : Int) (ty : SensorType)
    (a b c : α) (Z : Matrix (Fin 3) (Fin 15) α) (hZ : radarZsig m s.Xsig_pred_ = some Z)
    (h : (radarS m s Z).det ≠ 0) (hP : s.P_ᵀ = s.P_) (hR : s.Rradar_ᵀ = s.Rradar_) :
    ∃ r, UKF.UpdateRadar m s ⟨t, ty, [a, b, c]⟩ = some r ∧ r.P_ᵀ = r.P_ := by
  refine ⟨_, UpdateRadar_eq_some m s t ty a b c Z hZ h, ?_⟩
  have hS : (radarS m s Z)ᵀ = radarS m s Z := by
    simp only [radarS, Matrix.transpose_add, weightedOuter_transpose, hR]
  simp only [Matrix.transpose_sub, hP, gain_form_symm _ _ hS]

/-! ## Evaluation of the updates on the concrete states -/

omit [FloorRing α] in
theorem ctor_weights (u : Uninit α) (i : Fin 15) :
    (UKF.ctor u).weights_ i = if i = 0 then -4 / 3 else 1 / 6 := by
  simp only [UKF.ctor, n_aug_, Function.update_apply]
  norm_num

omit [FloorRing α] in
theorem gain_form_apply {r : Nat} (K : Matrix (Fin r) (Fin 2) α) (S : Matrix (Fin 2) (Fin 2) α)
    (a b : Fin r) :
    (K * S * Kᵀ) a b = K a 0 * S 0 0 * K b 0 + K a 0 * S 0 1 * K b 1 + K a 1 * S 1 0 * K b 0
      + K a 1 * S 1 1 * K b 1 := by
  simp only [Matrix.mul_apply, Fin.sum_univ_two, Matrix.transpose_apply]
  ring

omit [FloorRing α] in
theorem mul_fin_two_apply {r : Nat} (T : Matrix (Fin r) (Fin 2) α) (S : Matrix (Fin 2) (Fin 2) α)
    (a : Fin r) (j : Fin 2) : (T * S) a j = T a 0 * S 0 j + T a 1 * S 1 j := by
  simp only [Matrix.mul_apply, Fin.sum_univ_two]

theorem lidarTc_apply (m : Numerics α) (s : UKF α) (a : Fin 5) (b : Fin 2) :
    lidarTc m s a b = ∑ i, s.weights_ i * (stateDiff m s.Xsig_pred_ s.x_ i a *
      (lidarZsig s.Xsig_pred_ b i - weightedMean s.weights_ (lidarZsig s.Xsig_pred_) b)) := by
  simp [lidarTc, weightedOuter, Matrix.sum_apply, Matrix.vecMulVec_apply]

theorem wrapAngle_one (m : Numerics α) (h : 1 ≤ m.M_PI) : wrapAngle m 1 = 1 :=
  wrapAngle_of_mem m 1 (by linarith) h

theorem wrapAngle_neg_one (m : Numerics α) (h : 1 ≤ m.M_PI) : wrapAngle m (-1) = -1 :=
  wrapAngle_of_mem m (-1) (by linarith) (by linarith)

omit [FloorRing α] in
theorem headingState_weights (i : Fin 15) :
    (headingState (α := α)).weights_ i = if i = 0 then -4 / 3 else 1 / 6 :=
  ctor_weights ⟨0, 0, 0, 0, 0, 0⟩ i

omit [FloorRing α] in
theorem headingState_zpred :
    weightedMean (headingState (α := α)).weights_ (lidarZsig headingState.Xsig_pred_) =
      ![0, 0] := by
  funext k
  simp only [weightedMean, sum_fifteen, headingState_weights]
  fin_cases k <;> simp [lidarZsig, headingState]

omit [FloorRing α] in
theorem headingState_S :
    lidarS (headingState (α := α)) = !![427 / 1200, 0; 0, 9 / 400] := by
  have hz := headingState_zpred (α := α)
  ext i j
  simp only [lidarS, hz, weightedOuter, sum_fifteen, headingState_weights]
  fin_cases i <;> fin_cases j <;>
    simp [Matrix.vecMulVec_apply, lidarZsig, headingState, UKF.ctor, setCoeff] <;> norm_num

omit [FloorRing α] in
theorem headingState_Sinv :
    (!![427 / 1200, 0; 0, 9 / 400] : Matrix (Fin 2) (Fin 2) α)⁻¹ =
      !![1200 / 427, 0; 0, 400 / 9] := by
  apply Matrix.inv_eq_right_inv
  ext i j
  fin_cases i <;> fin_cases j <;> simp [Matrix.mul_apply, Fin.sum_univ_two]

theorem headingState_Tc (m : Numerics α) (h : 1 ≤ m.M_PI) :
    lidarTc m (headingState (α := α)) 3 0 = 1 / 3 ∧
      lidarTc m (headingState (α := α)) 3 1 = 0 := by
  have hz := headingState_zpred (α := α)
  have e1 : (4 : α) - 3 = 1 := by norm_num
  have e2 : (2 : α) - 3 = -1 := by norm_num
  simp only [lidarTc_apply, hz, sum_fifteen, headingState_weights]
  constructor <;>
    simp [lidarZsig, stateDiff, wrapComponent, Function.update_apply, headingState, e1, e2,
      wrapAngle_one m h, wrapAngle_neg_one m h, wrapAngle_zero]
  norm_num

/-- The result of `UpdateLidar` on `headingState` for the measurement `[10, 0]`: the
heading moves from `3` to `3 + 4000/427`. -/
theorem headingState_update (m : Numerics α) (h : 1 ≤ m.M_PI) :
    ∃ r, UKF.UpdateLidar m headingState ⟨0, SensorType.LASER, [10, 0]⟩ = some r ∧
      r.x_ 3 = 3 + 4000 / 427 := by
  have hS := headingState_S (α := α)
  have hdet : (lidarS (headingState (α := α))).det ≠ 0 := by
    rw [hS, Matrix.det_fin_two_of]; norm_num
  obtain ⟨h30, h31⟩ := headingState_Tc m h
  refine ⟨_, UpdateLidar_eq_some m _ 0 _ 10 0 hdet, ?_⟩
  simp only [Pi.add_apply, Matrix.mulVec, Matrix.dotProduct, Fin.sum_univ_two,
    mul_fin_two_apply, hS, headingState_Sinv, headingState_zpred, h30, h31]
  simp [headingState]
  norm_num

omit [FloorRing α] in
theorem junkNoiseState_weights (i : Fin 15) :
    (junkNoiseState (α := α)).weights_ i = if i = 0 then -4 / 3 else 1 / 6 :=
  ctor_weights ⟨0, 0, 0, 0, !![0, 1; 0, 0], 0⟩ i

omit [FloorRing α] in
/-- In `junkNoiseState` the mean is the weighted mean of the sigma points. -/
theorem junkNoiseState_mean :
    weightedMean (junkNoiseState (α := α)).weights_ junkNoiseState.Xsig_pred_ =
      junkNoiseState.x_ := by
  funext k
  simp only [weightedMean, sum_fifteen, junkNoiseState_weights]
  fin_cases k <;> simp [junkNoiseState]

omit [FloorRing α] in
theorem junkNoiseState_zpred :
    weightedMean (junkNoiseState (α := α)).weights_ (lidarZsig junkNoiseState.Xsig_pred_) =
      ![0, 0] := by
  funext k
  simp only [weightedMean, sum_fifteen, junkNoiseState_weights]
  fin_cases k <;> simp [lidarZsig, junkNoiseState]

omit [FloorRing α] in
theorem junkNoiseState_S :
    lidarS (junkNoiseState (α := α)) = !![427 / 1200, 1; 0, 427 / 1200] := by
  have hz := junkNoiseState_zpred (α := α)
  ext i j
  simp only [lidarS, hz, weightedOuter, sum_fifteen, junkNoiseState_weights]
  fin_cases i <;> fin_cases j <;>
    simp [Matrix.vecMulVec_apply, lidarZsig, junkNoiseState, UKF.ctor, setCoeff] <;> norm_num

omit [FloorRing α] in
theorem junkNoiseState_Sinv :
    (!![427 / 1200, 1; 0, 427 / 1200] : Matrix (Fin 2) (Fin 2) α)⁻¹ =
      !![1200 / 427, -(1440000 / 182329); 0, 1200 / 427] := by
  apply Matrix.inv_eq_right_inv
  ext i j
  fin_cases i <;> fin_cases j <;> (simp [Matrix.mul_apply, Fin.sum_univ_two]; try norm_num)

theorem junkNoiseState_Tc (m : Numerics α) :
    lidarTc m (junkNoiseState (α := α)) 0 0 = 1 / 3 ∧
      lidarTc m (junkNoiseState (α := α)) 0 1 = 0 ∧
      lidarTc m (junkNoiseState (α := α)) 1 0 = 0 ∧
      lidarTc m (junkNoiseState (α := α)) 1 1 = 1 / 3 := by
  have hz := junkNoiseState_zpred (α := α)
  simp only [lidarTc_apply, hz, sum_fifteen, junkNoiseState_weights]
  refine ⟨?_, ?_, ?_, ?_⟩ <;>
    (simp [lidarZsig, stateDiff, wrapComponent, Function.update_apply, junkNoiseState]
     try norm_num)

/-- The result of `UpdateLidar` on `junkNoiseState` for the measurement `[0, 0]`: two
mirrored entries of the covariance written. -/
theorem junkNoiseState_update (m : Numerics α) :
    ∃ r, UKF.UpdateLidar m junkNoiseState ⟨0, SensorType.LASER, [0, 0]⟩ = some r ∧
      r.P_ 0 1 = 0 ∧ r.P_ 1 0 = 160000 / 182329 := by
  have hS := junkNoiseState_S (α := α)
  have hdet : (lidarS (junkNoiseState (α := α))).det ≠ 0 := by
    rw [hS, Matrix.det_fin_two_of]; norm_num
  obtain ⟨h00, h01, h10, h11⟩ := junkNoiseState_Tc m
  refine ⟨_, UpdateLidar_eq_some m _ 0 _ 0 0 hdet, ?_, ?_⟩
  · simp only [Matrix.sub_apply, gain_form_apply, mul_fin_two_apply, junkNoiseState_Sinv, h00,
      h01, h10, h11, hS]
    simp [junkNoiseState]
    norm_num
  · simp only [Matrix.sub_apply, gain_form_apply, mul_fin_two_apply, junkNoiseState_Sinv, h00,
      h01, h10, h11, hS]
    simp [junkNoiseState]
    norm_num

omit [FloorRing α] in
theorem steadyState_weights (i : Fin 15) :
    (steadyState (α := α)).weights_ i = if i = 0 then -4 / 3 else 1 / 6 :=
  ctor_weights ⟨0, 0, 0, 0, 0, 0⟩ i

omit [FloorRing α] in
/-- With the weights of the constructor, the weighted mean of fifteen equal
columns is that column. -/
theorem steadyState_weightedMean {n : Nat} (c : Fin n → α) :
    weightedMean (steadyState (α := α)).weights_ (fun k _ => c k) = c := by
  funext k
  simp only [weightedMean, sum_fifteen, steadyState_weights]
  simp
  ring

omit [FloorRing α] in
theorem steadyState_lidarS :
    lidarS (steadyState (α := α)) = !![9 / 400, 0; 0, 9 / 400] := by
  have hz : weightedMean (steadyState (α := α)).weights_ (lidarZsig steadyState.Xsig_pred_) =
      ![1, 0] :=
    steadyState_weightedMean ![1, 0]
  ext i j
  simp only [lidarS, hz, weightedOuter, sum_fifteen, steadyState_weights]
  fin_cases i <;> fin_cases j <;>
    simp [Matrix.vecMulVec_apply, lidarZsig, steadyState, UKF.ctor, setCoeff] <;> norm_num

omit [FloorRing α] in
theorem steadyState_radarZsig (m : Numerics α) (h : m.sqrt 1 = 1) :
    radarZsig m (steadyState (α := α)).Xsig_pred_ = some (fun k _ => ![1, m.atan2 0 1, 0] k) := by
  have hp : ∀ j : Fin 15, radarPoint m (fun k => (steadyState (α := α)).Xsig_pred_ k j) =
      some ![1, m.atan2 0 1, 0] := by
    intro j
    simp [radarPoint, steadyState, fdiv, h]
  rw [radarZsig, columns_eq_some _ _ hp]

theorem steadyState_radarS (m : Numerics α) (c : Fin 3 → α) :
    radarS m (steadyState (α := α)) (fun k _ => c k) =
      Matrix.diagonal ![9 / 100, 9 / 10000, 9 / 100] := by
  have hd : radarDiff m (fun k _ => c k) c = fun _ => 0 := by
    funext i k
    simp [radarDiff, wrapComponent, Function.update_apply, wrapAngle_zero]
  have h0 : weightedOuter (steadyState (α := α)).weights_ (fun _ => (0 : Fin 3 → α))
      (fun _ => (0 : Fin 3 → α)) = 0 := by
    ext i j
    simp [weightedOuter, Matrix.sum_apply, Matrix.vecMulVec_apply]
  simp only [radarS, steadyState_weightedMean, hd, h0, zero_add]
  ext i j
  fin_cases i <;> fin_cases j <;>
    simp [steadyState, UKF.ctor, setCoeff] <;> norm_num

/-! ## Facts about the sigma points -/

theorem sum_sigma_split {β : Type} [AddCommMonoid β] (g : Fin 15 → β) :
    ∑ j, g j = g 0 + ∑ i : Fin 7, (g ⟨i.val + 1, by omega⟩ + g ⟨i.val + 8, by omega⟩) := by
  rw [sum_fifteen, Fin.sum_univ_seven]
  show g 0 + g 1 + g 2 + g 3 + g 4 + g 5 + g 6 + g 7 + g 8 + g 9 + g 10 + g 11 + g 12 + g 13
    + g 14 = g 0 + (g 1 + g 8 + (g 2 + g 9) + (g 3 + g 10) + (g 4 + g 11) + (g 5 + g 12)
    + (g 6 + g 13) + (g 7 + g 14))
  abel

omit [FloorRing α] in
theorem augmentedSigmaPoints_zero (m : Numerics α) (l : α) (x : Fin 7 → α)
    (A : Matrix (Fin 7) (Fin 7) α) (k : Fin 7) :
    augmentedSigmaPoints m l x A k 0 = x k := by
  simp [augmentedSigmaPoints]

omit [FloorRing α] in
theorem augmentedSigmaPoints_plus (m : Numerics α) (l : α) (x : Fin 7 → α)
    (A : Matrix (Fin 7) (Fin 7) α) (k i : Fin 7) :
    augmentedSigmaPoints m l x A k ⟨i.val + 1, by omega⟩ = x k + m.sqrt (l + n_aug_) * A k i := by
  have h : i.val + 1 ≤ 7 := by omega
  simp [augmentedSigmaPoints, h]

omit [FloorRing α] in
theorem augmentedSigmaPoints_minus (m : Numerics α) (l : α) (x : Fin 7 → α)
    (A : Matrix (Fin 7) (Fin 7) α) (k i : Fin 7) :
    augmentedSigmaPoints m l x A k ⟨i.val + 8, by omega⟩ = x k - m.sqrt (l + n_aug_) * A k i := by
  have h : ¬ i.val + 8 ≤ 7 := by omega
  simp [augmentedSigmaPoints, h]

omit [FloorRing α] in
/-- The weights of the constructor, split along the sigma-point pairs. -/
theorem weights_split (w : Fin 15 → α) (hw : ∀ i, w i = if i = 0 then -4 / 3 else 1 / 6) :
    w 0 = -4 / 3 ∧ (∀ i : Fin 7, w ⟨i.val + 1, by omega⟩ = 1 / 6) ∧
      (∀ i : Fin 7, w ⟨i.val + 8, by omega⟩ = 1 / 6) := by
  refine ⟨by rw [hw]; simp, fun i => ?_, fun i => ?_⟩
  · rw [hw, if_neg]
    intro h
    have := congrArg Fin.val h
    simp at this
  · rw [hw, if_neg]
    intro h
    have := congrArg Fin.val h
    simp at this

omit [FloorRing α] in
/-- With the weights of the constructor the weighted mean of the augmented sigma
points is the augmented mean. -/
theorem weightedMean_sigma (m : Numerics α) (l : α) (w : Fin 15 → α)
    (hw : ∀ i, w i = if i = 0 then -4 / 3 else 1 / 6) (x : Fin 7 → α)
    (A : Matrix (Fin 7) (Fin 7) α) :
    weightedMean w (augmentedSigmaPoints m l x A) = x := by
  obtain ⟨h0, h1, h2⟩ := weights_split w hw
  funext k
  rw [weightedMean, sum_sigma_split]
  simp only [h0, h1, h2, augmentedSigmaPoints_zero, augmentedSigmaPoints_plus,
    augmentedSigmaPoints_minus]
  have e : ∀ i : Fin 7, (1 / 6 * (x k + m.sqrt (l + n_aug_) * A k i) +
      1 / 6 * (x k - m.sqrt (l + n_aug_) * A k i)) = x k / 3 := by
    intro i; ring
  simp only [e, Finset.sum_const, Finset.card_univ, Fintype.card_fin, nsmul_eq_mul]
  push_cast
  ring

omit [FloorRing α] in
/-- Moment matching for a factor `A` and a spread `c` with `c * c = 3`. -/
theorem weightedOuter_sigma (m : Numerics α) (l : α) (w : Fin 15 → α)
    (hw : ∀ i, w i = if i = 0 then -4 / 3 else 1 / 6) (x : Fin 7 → α)
    (A : Matrix (Fin 7) (Fin 7) α) (hc : m.sqrt (l + n_aug_) * m.sqrt (l + n_aug_) = 3) :
    weightedOuter w (fun j k => augmentedSigmaPoints m l x A k j - x k)
      (fun j k => augmentedSigmaPoints m l x A k j - x k) = A * Aᵀ := by
  obtain ⟨h0, h1, h2⟩ := weights_split w hw
  ext a b
  rw [weightedOuter, Matrix.sum_apply, sum_sigma_split]
  simp only [Matrix.smul_apply, Matrix.vecMulVec_apply, smul_eq_mul, h0, h1, h2,
    augmentedSigmaPoints_zero, augmentedSigmaPoints_plus, augmentedSigmaPoints_minus,
    Matrix.mul_apply, Matrix.transpose_apply]
  have e : ∀ i : Fin 7, (1 / 6 * ((x a + m.sqrt (l + n_aug_) * A a i - x a) *
        (x b + m.sqrt (l + n_aug_) * A b i - x b)) +
      1 / 6 * ((x a - m.sqrt (l + n_aug_) * A a i - x a) *
        (x b - m.sqrt (l + n_aug_) * A b i - x b))) = A a i * A b i := by
    intro i
    linear_combination (A a i * A b i / 3) * hc
  simp only [e]
  ring

omit [FloorRing α] in
theorem augmentedMean_eq (x : Fin 5 → α) :
    augmentedMean x = ![x 0, x 1, x 2, x 3, x 4, 0, 0] := by
  funext k
  fin_cases k <;> rfl

omit [FloorRing α] in
/-- The propagation loop body as one closed expression. -/
theorem predictSigmaPoint_eq (m : Numerics α) (delta_t : α) (p : Fin 7 → α) :
    predictSigmaPoint m delta_t p = some ![
      (if |p 4| > 1 / 1000 then
          p 0 + p 2 / p 4 * (m.sin (p 3 + p 4 * delta_t) - m.sin (p 3))
        else p 0 + p 2 * delta_t * m.cos (p 3)) + 1 / 2 * p 5 * delta_t * delta_t * m.cos (p 3),
      (if |p 4| > 1 / 1000 then
          p 1 + p 2 / p 4 * (m.cos (p 3) - m.cos (p 3 + p 4 * delta_t))
        else p 1 + p 2 * delta_t * m.sin (p 3)) + 1 / 2 * p 5 * delta_t * delta_t * m.sin (p 3),
      p 2 + p 5 * delta_t,
      p 3 + p 4 * delta_t + 1 / 2 * p 6 * delta_t * delta_t,
      p 4 + p 6 * delta_t] := by
  by_cases h : |p 4| > 1 / 1000
  · have hne : p 4 ≠ 0 := by
      intro h0
      rw [h0, abs_zero] at h
      norm_num at h
    simp only [predictSigmaPoint, if_pos h, fdiv_of_ne _ _ hne, Option.map_some']
  · simp only [predictSigmaPoint, if_neg h, Option.map_some']

omit [FloorRing α] in
theorem predictSigmaPoint_zero (m : Numerics α) (p : Fin 7 → α) :
    predictSigmaPoint m 0 p = some ![p 0, p 1, p 2, p 3, p 4] := by
  rw [predictSigmaPoint_eq m 0 p]
  simp

/-- What `Prediction` returns when every sigma point is propagated to a known
point. -/
theorem Prediction_eq_some (m : Numerics α)
    (llt : Matrix (Fin 7) (Fin 7) α → Matrix (Fin 7) (Fin 7) α) (s : UKF α) (delta_t : α)
    (g : Fin 15 → Fin 5 → α)
    (hg : ∀ j, predictSigmaPoint m delta_t (fun k => augmentedSigmaPoints m s.lambda_
      (augmentedMean s.x_) (llt (augmentedCovariance s.P_ s.std_a_ s.std_yawdd_)) k j) =
        some (g j)) :
    UKF.Prediction m llt s delta_t = some { s with
      Xsig_pred_ := fun k j => g j k
      x_ := weightedMean s.weights_ (fun k j => g j k)
      P_ := weightedOuter s.weights_
        (stateDiff m (fun k j => g j k) (weightedMean s.weights_ (fun k j => g j k)))
        (stateDiff m (fun k j => g j k) (weightedMean s.weights_ (fun k j => g j k))) } := by
  rw [UKF.Prediction]
  simp only [columns_eq_some _ _ hg, Option.map_some']

omit [FloorRing α] in
/-- With the weights of the constructor, `Prediction(0)` keeps the mean. -/
theorem Prediction_zero_mean (m : Numerics α) (l : α) (w : Fin 15 → α)
    (hw : ∀ i, w i = if i = 0 then -4 / 3 else 1 / 6) (x : Fin 5 → α)
    (A : Matrix (Fin 7) (Fin 7) α) :
    weightedMean w (fun k j => ![augmentedSigmaPoints m l (augmentedMean x) A 0 j,
      augmentedSigmaPoints m l (augmentedMean x) A 1 j,
      augmentedSigmaPoints m l (augmentedMean x) A 2 j,
      augmentedSigmaPoints m l (augmentedMean x) A 3 j,
      augmentedSigmaPoints m l (augmentedMean x) A 4 j] k) = x := by
  have h := weightedMean_sigma m l w hw (augmentedMean x) A
  funext k
  fin_cases k
  · exact congrFun h 0
  · exact congrFun h 1
  · exact congrFun h 2
  · exact congrFun h 3
  · exact congrFun h 4

omit [FloorRing α] in
theorem augmentedCovariance_apply (P : Matrix (Fin 5) (Fin 5) α) (sa sy : α) (r c : Fin 7) :
    augmentedCovariance P sa sy r c =
      if h : r.val < 5 ∧ c.val < 5 then P ⟨r.val, h.1⟩ ⟨c.val, h.2⟩
      else if r = 5 ∧ c = 5 then sa * sa else if r = 6 ∧ c = 6 then sy * sy else 0 := by
  simp only [augmentedCovariance, setCoeff]
  by_cases h : r.val < 5 ∧ c.val < 5
  · have h6 : ¬ (r = 6 ∧ c = 6) := by
      rintro ⟨h1, -⟩
      rw [h1] at h
      exact absurd h.1 (by decide)
    have h5 : ¬ (r = 5 ∧ c = 5) := by
      rintro ⟨h1, -⟩
      rw [h1] at h
      exact absurd h.1 (by decide)
    rw [if_neg h6, if_neg h5, dif_pos h, dif_pos h]
  · rw [dif_neg h, dif_neg h]
    by_cases h6 : r = 6 ∧ c = 6
    · have h5 : ¬ (r = 5 ∧ c = 5) := by
        rintro ⟨h1, -⟩
        rw [h1] at h6
        exact absurd h6.1 (by decide)
      rw [if_pos h6, if_neg h5, if_pos h6]
    · rw [if_neg h6, if_neg h6]

/-! ## Facts about the linear update, traces and unchecked faults -/


omit [FloorRing α] in
theorem lidarH_mulVec (x : Fin 5 → α) : (lidarH (α := α)).mulVec x = ![x 0, x 1] := by
  funext k
  fin_cases k <;> simp [lidarH, Matrix.mulVec, Matrix.dotProduct, Fin.sum_univ_five, Fin.coe_ofNat_eq_mod]

omit [FloorRing α] in
theorem lidarH_eq : lidarH (α := α) = !![1, 0, 0, 0, 0; 0, 1, 0, 0, 0] := by
  ext i j
  fin_cases i <;> fin_cases j <;> simp [lidarH, Fin.coe_ofNat_eq_mod]

omit [FloorRing α] in
theorem mul_lidarH_transpose (P : Matrix (Fin 5) (Fin 5) α) :
    P * (lidarH (α := α))ᵀ = Matrix.of fun i => ![P i 0, P i 1] := by
  ext i j
  fin_cases j <;> simp [lidarH, Matrix.mul_apply, Fin.sum_univ_five, Fin.coe_ofNat_eq_mod]

omit [FloorRing α] in
theorem lidarH_mul_mul (P : Matrix (Fin 5) (Fin 5) α) :
    lidarH (α := α) * P * (lidarH (α := α))ᵀ = !![P 0 0, P 0 1; P 1 0, P 1 1] := by
  rw [Matrix.mul_assoc, mul_lidarH_transpose]
  ext i j
  fin_cases i <;> fin_cases j <;> simp [lidarH, Matrix.mul_apply, Fin.sum_univ_five, Fin.coe_ofNat_eq_mod]

theorem stateDiff_zero_one (m : Numerics α) (X : Matrix (Fin 5) (Fin 15) α) (x : Fin 5 → α)
    (i : Fin 15) :
    stateDiff m X x i 0 = X 0 i - x 0 ∧ stateDiff m X x i 1 = X 1 i - x 1 := by
  constructor <;> simp [stateDiff, wrapComponent, Function.update_apply]

/-- In a state whose mean and covariance are the weighted moments of
`Xsig_pred_`, the quantities of `UpdateLidar` are those of the linear filter. -/
theorem lidar_linear (m : Numerics α) (p : UKF α)
    (hx : p.x_ = weightedMean p.weights_ p.Xsig_pred_)
    (hP : p.P_ = weightedOuter p.weights_ (stateDiff m p.Xsig_pred_ p.x_)
      (stateDiff m p.Xsig_pred_ p.x_)) :
    weightedMean p.weights_ (lidarZsig p.Xsig_pred_) = ![p.x_ 0, p.x_ 1] ∧
    lidarS p = !![p.P_ 0 0, p.P_ 0 1; p.P_ 1 0, p.P_ 1 1] + p.Rlidar_ ∧
    lidarTc m p = Matrix.of fun i => ![p.P_ i 0, p.P_ i 1] := by
  have hz : weightedMean p.weights_ (lidarZsig p.Xsig_pred_) = ![p.x_ 0, p.x_ 1] := by
    funext k
    fin_cases k
    · show weightedMean p.weights_ p.Xsig_pred_ 0 = p.x_ 0
      rw [← hx]
    · show weightedMean p.weights_ p.Xsig_pred_ 1 = p.x_ 1
      rw [← hx]
  have hd : (fun (i : Fin 15) (k : Fin 2) => lidarZsig p.Xsig_pred_ k i - ![p.x_ 0, p.x_ 1] k) =
      fun i k => ![stateDiff m p.Xsig_pred_ p.x_ i 0, stateDiff m p.Xsig_pred_ p.x_ i 1] k := by
    funext i k
    have := stateDiff_zero_one m p.Xsig_pred_ p.x_ i
    fin_cases k <;> simp [lidarZsig, this.1, this.2]
  refine ⟨hz, ?_, ?_⟩
  · simp only [lidarS, hz, hd]
    congr 1
    ext a b
    rw [hP]
    fin_cases a <;> fin_cases b <;>
      simp [weightedOuter, Matrix.sum_apply, Matrix.vecMulVec_apply]
  · simp only [lidarTc, hz, hd]
    ext a b
    rw [hP]
    fin_cases b <;>
      simp [weightedOuter, Matrix.sum_apply, Matrix.vecMulVec_apply]

/-- The predicted state is consistent: mean and covariance are the weighted
moments of the predicted sigma points. -/
theorem Prediction_consistent (m : Numerics α)
    (llt : Matrix (Fin 7) (Fin 7) α → Matrix (Fin 7) (Fin 7) α) (s p : UKF α) (delta_t : α)
    (h : UKF.Prediction m llt s delta_t = some p) :
    p.x_ = weightedMean p.weights_ p.Xsig_pred_ ∧
    p.P_ = weightedOuter p.weights_ (stateDiff m p.Xsig_pred_ p.x_)
      (stateDiff m p.Xsig_pred_ p.x_) := by
  simp only [UKF.Prediction, Option.map_eq_some'] at h
  obtain ⟨X, -, rfl⟩ := h
  exact ⟨rfl, rfl⟩

/-- A positive semi-definite real matrix has a non-negative diagonal. -/
theorem posSemidef_diag_nonneg {n : Nat} {M : Matrix (Fin n) (Fin n) ℝ} (h : M.PosSemidef)
    (i : Fin n) : 0 ≤ M i i := by
  have := h.2 (Pi.single i 1)
  simpa [Matrix.mulVec, Matrix.dotProduct, Pi.single_apply] using this

/-- A positive semi-definite real matrix has a non-negative trace. -/
theorem posSemidef_trace_nonneg {n : Nat} {M : Matrix (Fin n) (Fin n) ℝ} (h : M.PosSemidef) :
    0 ≤ M.trace :=
  Finset.sum_nonneg fun i _ => posSemidef_diag_nonneg h i

/-- The correction `K S K^T` has a non-negative trace when `S` is positive definite. -/
theorem gain_form_trace_nonneg {r c : Nat} (K : Matrix (Fin r) (Fin c) ℝ)
    (S : Matrix (Fin c) (Fin c) ℝ) (hS : S.PosDef) : 0 ≤ (K * S * Kᵀ).trace := by
  have h := hS.posSemidef.mul_mul_conjTranspose_same K
  rw [Matrix.conjTranspose_eq_transpose_of_trivial] at h
  exact posSemidef_trace_nonneg h

/-! ## Prediction on `turnState` and with zero process noise -/

omit [FloorRing α] in
theorem turn_mean : augmentedMean (![0, 0, 3, 0, 0] : Fin 5 → α) =
    fun k => if k = 2 then 3 else 0 := by
  funext k
  fin_cases k <;> rfl

omit [FloorRing α] in
/-- The `x` coordinates of the fifteen predicted sigma points of `turnState` for
`delta_t = 1`. -/
theorem turn_px (m : Numerics α) (sa sy : α) (hc : m.sqrt 3 * m.sqrt 3 = 3)
    (hc0 : m.cos 0 = 1) (hcp : m.cos m.M_PI = -1) (hcn : m.cos (-m.M_PI) = -1)
    (j : Fin 15) :
    ∃ q, predictSigmaPoint m 1 (fun k => augmentedSigmaPoints m (turnState m sa sy).lambda_
        (augmentedMean (turnState m sa sy).x_) (turnFactor m sa sy) k j) = some q ∧
      q 0 = if j = 0 then 3 else if j = 1 then 1 / 1000 - 3 else if j = 8 then -(1 / 1000) - 3
        else if j = 3 then -(3 + 1 / 1000) else if j = 10 then -(3 - 1 / 1000)
        else if j = 6 then 3 + m.sqrt 3 * sa / 2 else if j = 13 then 3 - m.sqrt 3 * sa / 2
        else if j = 2 ∨ j = 9 ∨ j = 4 ∨ j = 11 then -3 else 3 := by
  have hl : (turnState m sa sy).lambda_ + n_aug_ = (3 : α) := by
    simp [turnState, UKF.ctor, n_aug_]
  have hne : m.sqrt 3 ≠ 0 := by
    intro h
    rw [h] at hc
    norm_num at hc
  have hpi : m.sqrt 3 * (m.M_PI / m.sqrt 3) = m.M_PI := by field_simp
  have he : m.sqrt 3 * (1 / 1000 / m.sqrt 3) = 1 / 1000 := by field_simp; ring
  have he2 : m.sqrt 3 * (1000⁻¹ / m.sqrt 3) = 1000⁻¹ := by field_simp; ring
  have ha2 : ¬ ((1000 : α)⁻¹ < |(1000 : α)⁻¹|) := by
    rw [abs_of_pos (by norm_num)]; exact lt_irrefl _
  have ha2' : ¬ ((1000 : α)⁻¹ < |(-(1000 : α)⁻¹)|) := by
    rw [abs_neg, abs_of_pos (by norm_num)]; exact lt_irrefl _
  have ha : ¬ (|(1 / 1000 : α)| > 1 / 1000) := by
    rw [abs_of_pos (by norm_num)]; exact lt_irrefl _
  have ha' : ¬ (|(-(1 / 1000) : α)| > 1 / 1000) := by
    rw [abs_neg, abs_of_pos (by norm_num)]; exact lt_irrefl _
  refine ⟨_, predictSigmaPoint_eq m 1 _, ?_⟩
  have hx : (turnState m sa sy).x_ = ![0, 0, 3, 0, 0] := rfl
  rw [hx, turn_mean]
  fin_cases j
  · simp [augmentedSigmaPoints, hc0]
  all_goals
    simp [augmentedSigmaPoints, turnFactor, hl, hpi, he, he2, ha, ha', ha2, ha2', hc0, hcp, hcn,
      Fin.coe_ofNat_eq_mod, Fin.ext_iff]
  all_goals try norm_num [hpi, he, he2, ha, ha', ha2, ha2', hc0, hcp, hcn]
  all_goals try ring

/-- The state returned by `Prediction(1)` on `turnState`: the `x` coordinate of the
mean and the variance written for it. -/
theorem turn_prediction (m : Numerics α) (sa sy : α) (hc : m.sqrt 3 * m.sqrt 3 = 3)
    (hc0 : m.cos 0 = 1) (hcp : m.cos m.M_PI = -1) (hcn : m.cos (-m.M_PI) = -1) :
    ∃ r, UKF.Prediction m (fun _ => turnFactor m sa sy) (turnState m sa sy) 1 = some r ∧
      r.x_ 0 = -5 ∧ r.P_ 0 0 = -16 + sa * sa / 4 + 1 / 1500000 := by
  choose g hg hq using turn_px m sa sy hc hc0 hcp hcn
  have hw : ∀ i, (turnState m sa sy).weights_ i = if i = 0 then -4 / 3 else 1 / 6 :=
    ctor_weights ⟨0, 0, 0, 0, 0, 0⟩
  have hmean : weightedMean (turnState m sa sy).weights_ (fun k j => g j k) 0 = -5 := by
    simp only [weightedMean, sum_fifteen, hw, hq]
    simp
    ring
  refine ⟨_, Prediction_eq_some m _ (turnState m sa sy) 1 g hg, hmean, ?_⟩
  show weightedOuter (turnState m sa sy).weights_ _ _ 0 0 = _
  simp only [weightedOuter, Matrix.sum_apply, Matrix.smul_apply, Matrix.vecMulVec_apply,
    smul_eq_mul, (stateDiff_zero_one m _ _ _).1, hmean, sum_fifteen, hw, hq]
  simp
  linear_combination (sa * sa / 12) * hc

omit [FloorRing α] in
/-- A row of a factor of `M` vanishes where the diagonal entry of `M` does. -/
theorem factor_row_zero {n : Nat} (A M : Matrix (Fin n) (Fin n) α) (h : A * Aᵀ = M) (k : Fin n)
    (hk : M k k = 0) (i : Fin n) : A k i = 0 := by
  have h1 : ∑ i, A k i * A k i = 0 := by
    rw [← hk, ← h]
    simp [Matrix.mul_apply]
  have h2 := (Finset.sum_eq_zero_iff_of_nonneg (fun i _ => mul_self_nonneg (A k i))).1 h1 i
    (Finset.mem_univ i)
  exact mul_self_eq_zero.1 h2

omit [FloorRing α] in
/-- A component in which the factor has a zero row is the same in all sigma points. -/
theorem augmentedSigmaPoints_of_row_zero (m : Numerics α) (l : α) (x : Fin 7 → α)
    (A : Matrix (Fin 7) (Fin 7) α) (k : Fin 7) (h : ∀ i, A k i = 0) (j : Fin 15) :
    augmentedSigmaPoints m l x A k j = x k := by
  simp only [augmentedSigmaPoints]
  split_ifs <;> simp [h]

omit [FloorRing α] in
theorem weights_sum (w : Fin 15 → α) (hw : ∀ i, w i = if i = 0 then -4 / 3 else 1 / 6) :
    ∑ i, w i = 1 := by
  simp only [sum_fifteen, hw]
  simp
  norm_num

omit [FloorRing α] in
/-- The matrix `turnFactor` is a factor of the augmented covariance of `turnState`. -/
theorem turnFactor_mul_transpose (m : Numerics α) (sa sy : α) :
    turnFactor m sa sy * (turnFactor m sa sy)ᵀ =
      augmentedCovariance (turnState m sa sy).P_ (turnState m sa sy).std_a_
        (turnState m sa sy).std_yawdd_ := by
  ext r c
  rw [augmentedCovariance_apply]
  by_cases h : r.val < 5 ∧ c.val < 5
  · rw [dif_pos h]
    rfl
  · rw [dif_neg h]
    simp only [Matrix.mul_apply, Matrix.transpose_apply, Fin.sum_univ_seven]
    fin_cases r <;> fin_cases c <;>
      first
      | (exfalso; exact h (by decide))
      | simp [turnFactor, turnState, Fin.coe_ofNat_eq_mod, Fin.ext_iff]

omit [FloorRing α] in
/-- The weighted sum of outer products when the sigma points 1 to 7 share one
difference and the sigma points 8 to 14 another. -/
theorem weightedOuter_groups {r c : Nat} (w : Fin 15 → α)
    (hw : ∀ i, w i = if i = 0 then -4 / 3 else 1 / 6) (a : Fin 15 → Fin r → α)
    (b : Fin 15 → Fin c → α) (a0 a1 a2 : Fin r → α) (b0 b1 b2 : Fin c → α)
    (ha : ∀ i, a i = if i = 0 then a0 else if i.val ≤ 7 then a1 else a2)
    (hb : ∀ i, b i = if i = 0 then b0 else if i.val ≤ 7 then b1 else b2) :
    weightedOuter w a b = (-4 / 3 : α) • vecMulVec a0 b0 + (7 / 6 : α) • vecMulVec a1 b1
      + (7 / 6 : α) • vecMulVec a2 b2 := by
  simp only [weightedOuter, sum_fifteen, hw, ha, hb]
  ext i j
  simp [Fin.ext_iff, Fin.coe_ofNat_eq_mod, Matrix.vecMulVec_apply]
  ring

omit [FloorRing α] in
/-- The weighted mean when the sigma points 1 to 7 are equal and the sigma points
8 to 14 are equal. -/
theorem weightedMean_groups {n : Nat} (w : Fin 15 → α)
    (hw : ∀ i, w i = if i = 0 then -4 / 3 else 1 / 6) (M : Matrix (Fin n) (Fin 15) α)
    (c0 c1 c2 : Fin n → α)
    (hM : ∀ k i, M k i = if i = 0 then c0 k else if i.val ≤ 7 then c1 k else c2 k) (k : Fin n) :
    weightedMean w M k = -4 / 3 * c0 k + 7 / 6 * c1 k + 7 / 6 * c2 k := by
  simp only [weightedMean, sum_fifteen, hw, hM]
  simp [Fin.ext_iff, Fin.coe_ofNat_eq_mod]
  ring

omit [FloorRing α] in
theorem reversalState_weights (m : Numerics α) (i : Fin 15) :
    (reversalState m).weights_ i = if i = 0 then -4 / 3 else 1 / 6 :=
  ctor_weights ⟨0, 0, 0, 0, 0, 0⟩ i

/-- The differences of the sigma points of `reversalState` from its mean. -/
theorem reversalState_stateDiff (m : Numerics α) (i : Fin 15) :
    stateDiff m (reversalState m).Xsig_pred_ (reversalState m).x_ i =
      if i = 0 then 0
      else if i.val ≤ 7 then ![0, 0, 3, m.M_PI, 0] else ![0, 0, -3, -m.M_PI, 0] := by
  have hp := m.M_PI_pos
  have w1 : wrapAngle m m.M_PI = m.M_PI := wrapAngle_of_mem m _ (by linarith) le_rfl
  have w2 : wrapAngle m (-m.M_PI) = -m.M_PI := wrapAngle_of_mem m _ le_rfl (by linarith)
  funext k
  by_cases h0 : i = 0
  · subst h0
    fin_cases k <;>
      simp [stateDiff, wrapComponent, Function.update_apply, reversalState, wrapAngle_zero]
  · by_cases h7 : i.val ≤ 7
    · fin_cases k <;>
        (simp [stateDiff, wrapComponent, Function.update_apply, reversalState, h0, h7, w1]
         try norm_num)
    · fin_cases k <;>
        (simp [stateDiff, wrapComponent, Function.update_apply, reversalState, h0, h7, w2]
         try norm_num)

omit [FloorRing α] in
/-- The sigma points of `reversalState` in measurement space: range `1`, bearing
`atan2(0, 1)` and range-rate `v * cos(yaw)`. -/
theorem reversalState_radarZsig (m : Numerics α) (h1 : m.sqrt 1 = 1) (hc0 : m.cos 0 = 1)
    (hcp : m.cos m.M_PI = -1) (hcn : m.cos (-m.M_PI) = -1) :
    radarZsig m (reversalState m).Xsig_pred_ = some (fun k i =>
      if i = 0 then ![1, m.atan2 0 1, 1] k
      else if i.val ≤ 7 then ![1, m.atan2 0 1, -4] k else ![1, m.atan2 0 1, 2] k) := by
  have hp : ∀ j : Fin 15, radarPoint m (fun k => (reversalState m).Xsig_pred_ k j) =
      some (fun k => if j = 0 then ![1, m.atan2 0 1, 1] k
        else if j.val ≤ 7 then ![1, m.atan2 0 1, -4] k else ![1, m.atan2 0 1, 2] k) := by
    intro j
    by_cases h0 : j = 0
    · subst h0
      simp [radarPoint, reversalState, fdiv, h1, hc0]
    · by_cases h7 : j.val ≤ 7
      · simp [radarPoint, reversalState, fdiv, h1, hcp, h0, h7]
      · simp [radarPoint, reversalState, fdiv, h1, hcn, h0, h7]
  rw [radarZsig, columns_eq_some _ _ hp]

omit [FloorRing α] in
/-- The predicted measurement of `reversalState`. -/
theorem reversalState_zpred (m : Numerics α) :
    weightedMean (reversalState m).weights_ (fun k i =>
      if i = 0 then ![1, m.atan2 0 1, 1] k
      else if i.val ≤ 7 then ![1, m.atan2 0 1, -4] k else ![1, m.atan2 0 1, 2] k) =
      ![1, m.atan2 0 1, -11 / 3] := by
  funext k
  rw [weightedMean_groups _ (reversalState_weights m) _ ![1, m.atan2 0 1, 1]
    ![1, m.atan2 0 1, -4] ![1, m.atan2 0 1, 2] (fun _ _ => rfl)]
  fin_cases k <;> (simp; try ring)

/-- The measurement differences of `reversalState`. -/
theorem reversalState_radarDiff (m : Numerics α) (i : Fin 15) :
    radarDiff m (fun k i =>
      if i = 0 then ![1, m.atan2 0 1, 1] k
      else if i.val ≤ 7 then ![1, m.atan2 0 1, -4] k else ![1, m.atan2 0 1, 2] k)
      ![1, m.atan2 0 1, -11 / 3] i =
      if i = 0 then ![0, 0, 14 / 3]
      else if i.val ≤ 7 then ![0, 0, -1 / 3] else ![0, 0, 17 / 3] := by
  funext k
  by_cases h0 : i = 0
  · subst h0
    fin_cases k <;>
      (simp [radarDiff, wrapComponent, Function.update_apply, wrapAngle_zero]
       try norm_num)
  · by_cases h7 : i.val ≤ 7
    · fin_cases k <;>
        (simp [radarDiff, wrapComponent, Function.update_apply, wrapAngle_zero, h0, h7]
         try norm_num)
    · fin_cases k <;>
        (simp [radarDiff, wrapComponent, Function.update_apply, wrapAngle_zero, h0, h7]
         try norm_num)

/-- The predicted measurement covariance of `reversalState`. -/
theorem reversalState_radarS (m : Numerics α) :
    radarS m (reversalState m) (fun k i =>
      if i = 0 then ![1, m.atan2 0 1, 1] k
      else if i.val ≤ 7 then ![1, m.atan2 0 1, -4] k else ![1, m.atan2 0 1, 2] k) =
      Matrix.diagonal ![9 / 100, 9 / 10000, 7781 / 900] := by
  simp only [radarS, reversalState_zpred]
  rw [weightedOuter_groups _ (reversalState_weights m) _ _ _ _ _ _ _ _
    (reversalState_radarDiff m) (reversalState_radarDiff m)]
  ext a b
  fin_cases a <;> fin_cases b <;>
    (simp [reversalState, UKF.ctor, setCoeff, Matrix.vecMulVec_apply]
     try norm_num)

/-- The cross-correlation matrix of `reversalState`. -/
theorem reversalState_radarTc (m : Numerics α) :
    radarTc m (reversalState m) (fun k i =>
      if i = 0 then ![1, m.atan2 0 1, 1] k
      else if i.val ≤ 7 then ![1, m.atan2 0 1, -4] k else ![1, m.atan2 0 1, 2] k) =
      Matrix.of fun a b => ![0, 0, -21, -(7 * m.M_PI), 0] a * ![0, 0, 1] b := by
  simp only [radarTc, reversalState_zpred]
  rw [weightedOuter_groups _ (reversalState_weights m) _ _ _ _ _ _ _ _
    (reversalState_stateDiff m) (reversalState_radarDiff m)]
  ext a b
  fin_cases a <;> fin_cases b <;>
    (simp [Matrix.vecMulVec_apply]
     try ring)

omit [FloorRing α] in
theorem reversalState_Sinv :
    (Matrix.diagonal ![9 / 100, 9 / 10000, 7781 / 900] : Matrix (Fin 3) (Fin 3) α)⁻¹ =
      Matrix.diagonal ![100 / 9, 10000 / 9, 900 / 7781] := by
  apply Matrix.inv_eq_right_inv
  rw [Matrix.diagonal_mul_diagonal]
  ext i j
  fin_cases i <;> fin_cases j <;> simp

/-- The result of `UpdateRadar` on `reversalState`: the heading moves from `0` to
`-(6300/7781) * pi * (c + 11/3)` for the range-rate reading `c`, and the speed
variance becomes `21 - 396900/7781`. -/
theorem reversalState_update (m : Numerics α) (h1 : m.sqrt 1 = 1) (hc0 : m.cos 0 = 1)
    (hcp : m.cos m.M_PI = -1) (hcn : m.cos (-m.M_PI) = -1) (t : Int) (ty : SensorType)
    (a b c : α) :
    ∃ r, UKF.UpdateRadar m (reversalState m) ⟨t, ty, [a, b, c]⟩ = some r ∧
      r.x_ 3 = -(6300 / 7781) * m.M_PI * (c + 11 / 3) ∧
      r.P_ 2 2 = 21 - 396900 / 7781 := by
  have hZ := reversalState_radarZsig m h1 hc0 hcp hcn
  have hS := reversalState_radarS m
  have hT := reversalState_radarTc m
  have hdet : (radarS m (reversalState m) (fun k i =>
      if i = 0 then ![1, m.atan2 0 1, 1] k
      else if i.val ≤ 7 then ![1, m.atan2 0 1, -4] k else ![1, m.atan2 0 1, 2] k)).det ≠ 0 := by
    rw [hS, Matrix.det_diagonal]
    simp [Fin.prod_univ_succ]
  refine ⟨_, UpdateRadar_eq_some m _ t ty a b c _ hZ hdet, ?_, ?_⟩
  · simp only [hS, hT, reversalState_Sinv, reversalState_zpred, Pi.add_apply, Matrix.mulVec,
      Matrix.dotProduct, Fin.sum_univ_three, Matrix.mul_diagonal, Matrix.of_apply]
    simp [reversalState, wrapComponent, Function.update_apply]
    ring
  · simp only [hS, hT, reversalState_Sinv, Matrix.sub_apply, Matrix.mul_apply,
      Matrix.transpose_apply, Fin.sum_univ_three, Matrix.mul_diagonal, Matrix.of_apply]
    simp [reversalState, Matrix.vecMulVec_apply]
    norm_num

/-- The heading that `UpdateLidar` writes on `headingState` for the measurement
`[10, 0]`. -/
theorem headingState_heading (m : Numerics α) (h : 1 ≤ m.M_PI) :
    (headingState (α := α)).x_ 3 + (lidarTc m headingState * (lidarS headingState)⁻¹).mulVec
      (![10, 0] - weightedMean headingState.weights_ (lidarZsig headingState.Xsig_pred_)) 3 =
      3 + 4000 / 427 := by
  obtain ⟨h30, h31⟩ := headingState_Tc m h
  simp only [Matrix.mulVec, Matrix.dotProduct, Fin.sum_univ_two,
    mul_fin_two_apply, headingState_S, headingState_Sinv, headingState_zpred, h30, h31]
  simp [headingState]
  norm_num

/-- The heading variance that `UpdateLidar` writes on `headingState`. -/
theorem headingState_variance (m : Numerics α) (h : 1 ≤ m.M_PI) :
    ((headingState (α := α)).P_ - lidarTc m (headingState (α := α)) *
      (lidarS (headingState (α := α)))⁻¹ * lidarS (headingState (α := α)) *
      (lidarTc m (headingState (α := α)) * (lidarS (headingState (α := α)))⁻¹)ᵀ :
        Matrix (Fin 5) (Fin 5) α) 3 3 = 1 / 3 - 400 / 1281 := by
  obtain ⟨h30, h31⟩ := headingState_Tc m h
  simp only [Matrix.sub_apply, gain_form_apply, mul_fin_two_apply, headingState_S,
    headingState_Sinv, h30, h31]
  simp [headingState, Matrix.vecMulVec_apply]
  norm_num

omit [FloorRing α] in
theorem inverse_isSome {n : Nat} (S : Matrix (Fin n) (Fin n) α) :
    (inverse S).isSome = true ↔ S.det ≠ 0 := by
  unfold inverse
  split_ifs with h <;> simp [h]

end Lemmas

section Claims

variable {α : Type} [LinearOrderedField α] [FloorRing α]

omit [FloorRing α] in
/-- C1: the constructor sets `lambda_ = 3 - n_aug_ = -4`, `weights_(0) = -4/3` and
`weights_(i) = 1/6` for the fourteen indices `i = 1..14`, and the fifteen weights
add up to exactly `1`. -/
theorem UKF_weights_sum (u : Uninit α) :
    (UKF.ctor u).lambda_ = -4 ∧ (UKF.ctor u).weights_ 0 = -4 / 3 ∧
      (∀ i : Fin 14, (UKF.ctor u).weights_ i.succ = 1 / 6) ∧
      ∑ i : Fin 15, (UKF.ctor u).weights_ i = 1 := by
  have h0 : (UKF.ctor u).weights_ 0 = -4 / 3 := by
    simp [UKF.ctor, n_aug_]; norm_num
  have hs : ∀ i : Fin 14, (UKF.ctor u).weights_ i.succ = 1 / 6 := by
    intro i
    simp [UKF.ctor, n_aug_, Function.update, Fin.succ_ne_zero]; norm_num
  refine ⟨by simp [UKF.ctor, n_aug_]; norm_num, h0, hs, ?_⟩
  rw [Fin.sum_univ_succ, h0]
  simp only [hs]
  simp; norm_num

/-- C2: a LASER measurement `[x, y]` with timestamp `t` delivered to a filter that is
not initialized leaves the state mean `[x, y, 0, 0, 0]` and the covariance
`diag(std_laspx_^2, std_laspy_^2, 1, 1, 1)`, which is `diag(0.0225, 0.0225, 1, 1, 1)`
for the standard deviations `0.15` set by the constructor; every off-diagonal
entry is `0`. -/
theorem ProcessMeasurement_first_laser (m : Numerics α)
    (llt : Matrix (Fin 7) (Fin 7) α → Matrix (Fin 7) (Fin 7) α) (s : UKF α) (x y : α) (t : Int)
    (hs : s.is_initialized_ = false) (hx : s.std_laspx_ = 15 / 100)
    (hy : s.std_laspy_ = 15 / 100) :
    ∃ r, UKF.ProcessMeasurement m llt s ⟨t, SensorType.LASER, [x, y]⟩ = some r ∧
      r.x_ = ![x, y, 0, 0, 0] ∧
      r.P_ = Matrix.diagonal
        ![s.std_laspx_ * s.std_laspx_, s.std_laspy_ * s.std_laspy_, 1, 1, 1] ∧
      r.P_ = Matrix.diagonal ![0.0225, 0.0225, 1, 1, 1] ∧
      (∀ i j, i ≠ j → r.P_ i j = 0) := by
  refine ⟨_, by simp [UKF.ProcessMeasurement, hs, UKF.firstMeasurement]; rfl, rfl, ?_, ?_, ?_⟩
  · simp [initialCovariance_eq]
  · simp [initialCovariance_eq, hx, hy]; norm_num
  · intro i j hij
    simp [initialCovariance_eq, Matrix.diagonal_apply_ne _ hij]

/-- C2, at the measurement `[1.0, 2.0]` on a freshly constructed filter over the
reals: the state is `[1, 2, 0, 0, 0]`. -/
theorem ProcessMeasurement_first_laser_witness :
    ∃ r, UKF.ProcessMeasurement
        (⟨Real.cos, Real.sin, Real.sqrt, fun y x => Complex.arg ⟨x, y⟩, Real.pi, Real.pi_pos⟩ :
          Numerics ℝ)
        (fun P => Matrix.diagonal fun i => Real.sqrt (P i i))
        (UKF.ctor ⟨0, 0, 0, 0, 0, 0⟩) ⟨0, SensorType.LASER, [1, 2]⟩ = some r ∧
      r.x_ = ![1, 2, 0, 0, 0] ∧ r.P_ = Matrix.diagonal ![0.0225, 0.0225, 1, 1, 1] := by
  obtain ⟨r, h1, h2, -, h3, -⟩ := ProcessMeasurement_first_laser
    (⟨Real.cos, Real.sin, Real.sqrt, fun y x => Complex.arg ⟨x, y⟩, Real.pi, Real.pi_pos⟩ :
      Numerics ℝ)
    (fun P => Matrix.diagonal fun i => Real.sqrt (P i i))
    (UKF.ctor ⟨0, 0, 0, 0, 0, 0⟩) 1 2 0 rfl rfl rfl
  exact ⟨r, h1, h2, h3⟩

/-- C3: a RADAR measurement `[rho, phi, rho_dot]` delivered to a filter that is not
initialized leaves the state mean `[rho*cos(phi), rho*sin(phi), rho_dot, phi, 0]`
and the covariance `diag(std_radr_^2, std_radphi_^2, std_radrd_^2, 1, 1)`, which is
`diag(0.09, 0.0009, 0.09, 1, 1)` for the standard deviations set by the
constructor; every off-diagonal entry is `0`. -/
theorem ProcessMeasurement_first_radar (m : Numerics α)
    (llt : Matrix (Fin 7) (Fin 7) α → Matrix (Fin 7) (Fin 7) α) (s : UKF α)
    (rho phi rho_dot : α) (t : Int)
    (hs : s.is_initialized_ = false) (hr : s.std_radr_ = 3 / 10)
    (hphi : s.std_radphi_ = 3 / 100) (hrd : s.std_radrd_ = 3 / 10) :
    ∃ r, UKF.ProcessMeasurement m llt s ⟨t, SensorType.RADAR, [rho, phi, rho_dot]⟩ = some r ∧
      r.x_ = ![rho * m.cos phi, rho * m.sin phi, rho_dot, phi, 0] ∧
      r.P_ = Matrix.diagonal ![s.std_radr_ * s.std_radr_, s.std_radphi_ * s.std_radphi_,
        s.std_radrd_ * s.std_radrd_, 1, 1] ∧
      r.P_ = Matrix.diagonal ![0.09, 0.0009, 0.09, 1, 1] ∧
      (∀ i j, i ≠ j → r.P_ i j = 0) := by
  refine ⟨_, by simp [UKF.ProcessMeasurement, hs, UKF.firstMeasurement]; rfl, rfl, ?_, ?_, ?_⟩
  · simp [initialCovariance_eq]
  · simp [initialCovariance_eq, hr, hphi, hrd]; norm_num
  · intro i j hij
    simp [initialCovariance_eq, Matrix.diagonal_apply_ne _ hij]

/-- C3, at the measurement `[5.0, 0.0, 0.0]` on a freshly constructed filter over
the reals: the position is `[5, 0]`. -/
theorem ProcessMeasurement_first_radar_witness :
    ∃ r, UKF.ProcessMeasurement
        (⟨Real.cos, Real.sin, Real.sqrt, fun y x => Complex.arg ⟨x, y⟩, Real.pi, Real.pi_pos⟩ :
          Numerics ℝ)
        (fun P => Matrix.diagonal fun i => Real.sqrt (P i i))
        (UKF.ctor ⟨0, 0, 0, 0, 0, 0⟩) ⟨0, SensorType.RADAR, [5, 0, 0]⟩ = some r ∧
      r.x_ 0 = 5 ∧ r.x_ 1 = 0 ∧ r.P_ = Matrix.diagonal ![0.09, 0.0009, 0.09, 1, 1] := by
  obtain ⟨r, h1, h2, -, h3, -⟩ := ProcessMeasurement_first_radar
    (⟨Real.cos, Real.sin, Real.sqrt, fun y x => Complex.arg ⟨x, y⟩, Real.pi, Real.pi_pos⟩ :
      Numerics ℝ)
    (fun P => Matrix.diagonal fun i => Real.sqrt (P i i))
    (UKF.ctor ⟨0, 0, 0, 0, 0, 0⟩) 5 0 0 0 rfl rfl rfl rfl
  exact ⟨r, h1, by simp [h2], by simp [h2], h3⟩

/-- C4: on an initialized filter a RADAR measurement with `use_radar_ = false`, and
likewise a LASER measurement with `use_laser_ = false`, is answered by the
prediction alone: `Prediction((t - time_us_) / 10^6)` returns a state `p`, and
`ProcessMeasurement` returns `p` with the recorded timestamp set to `t`. -/
theorem ProcessMeasurement_disabled_sensor (m : Numerics α)
    (llt : Matrix (Fin 7) (Fin 7) α → Matrix (Fin 7) (Fin 7) α) (s : UKF α)
    (meas : MeasurementPackage α) (hs : s.is_initialized_ = true)
    (hoff : (meas.sensor_type_ = SensorType.RADAR ∧ s.use_radar_ = false) ∨
      (meas.sensor_type_ = SensorType.LASER ∧ s.use_laser_ = false)) :
    ∃ p, UKF.Prediction m llt s (((meas.timestamp_ - s.time_us_ : Int) : α) / 1000000) = some p ∧
      UKF.ProcessMeasurement m llt s meas = some { p with time_us_ := meas.timestamp_ } ∧
      p.time_us_ = s.time_us_ := by
  obtain ⟨p, hp⟩ := Prediction_isSome m llt s
    (((meas.timestamp_ - s.time_us_ : Int) : α) / 1000000)
  have hfr := Prediction_frame m llt s p _ hp
  have hl : p.use_laser_ = s.use_laser_ := by rw [hfr]
  have hr : p.use_radar_ = s.use_radar_ := by rw [hfr]
  refine ⟨p, hp, ?_, by rw [hfr]⟩
  simp only [UKF.ProcessMeasurement, Prediction_time_us, hp, Option.map_some',
    Option.some_bind]
  rcases hoff with ⟨h1, h2⟩ | ⟨h1, h2⟩
  · simp [hs, h1, hr, h2]
  · simp [hs, h1, hl, h2]

/-- C4, on an initialized filter over the reals with the range/bearing sensor
switched off and a RADAR measurement one second after the last timestamp. -/
theorem ProcessMeasurement_disabled_sensor_witness :
    ∃ p, UKF.Prediction
        (⟨Real.cos, Real.sin, Real.sqrt, fun y x => Complex.arg ⟨x, y⟩, Real.pi, Real.pi_pos⟩ :
          Numerics ℝ)
        (fun P => Matrix.diagonal fun i => Real.sqrt (P i i))
        { UKF.ctor ⟨0, 1, 0, 0, 0, 0⟩ with is_initialized_ := true, use_radar_ := false }
        (((1000000 - 0 : Int) : ℝ) / 1000000) = some p ∧
      UKF.ProcessMeasurement
        (⟨Real.cos, Real.sin, Real.sqrt, fun y x => Complex.arg ⟨x, y⟩, Real.pi, Real.pi_pos⟩ :
          Numerics ℝ)
        (fun P => Matrix.diagonal fun i => Real.sqrt (P i i))
        { UKF.ctor ⟨0, 1, 0, 0, 0, 0⟩ with is_initialized_ := true, use_radar_ := false }
        ⟨1000000, SensorType.RADAR, [1, 0, 0]⟩ = some { p with time_us_ := 1000000 } ∧
      p.time_us_ = 0 :=
  ProcessMeasurement_disabled_sensor
    (⟨Real.cos, Real.sin, Real.sqrt, fun y x => Complex.arg ⟨x, y⟩, Real.pi, Real.pi_pos⟩ :
      Numerics ℝ)
    (fun P => Matrix.diagonal fun i => Real.sqrt (P i i))
    { UKF.ctor ⟨0, 1, 0, 0, 0, 0⟩ with is_initialized_ := true, use_radar_ := false }
    ⟨1000000, SensorType.RADAR, [1, 0, 0]⟩ rfl (Or.inl ⟨rfl, rfl⟩)

/-- C5: on a filter that is not initialized the first measurement is answered the
same way whatever the flags `use_laser_ = a` and `use_radar_ = b` are: the result
is the old record with the mean and covariance of the initialization,
`is_initialized_ = true` and the timestamp of the measurement; `Xsig_pred_` and
the flags are the old ones, so neither a prediction nor an update has run. -/
theorem ProcessMeasurement_first_ignores_flags (m : Numerics α)
    (llt : Matrix (Fin 7) (Fin 7) α → Matrix (Fin 7) (Fin 7) α) (s : UKF α) (a b : Bool)
    (t : Int) (hs : s.is_initialized_ = false) :
    (∀ x y : α,
      UKF.ProcessMeasurement m llt { s with use_laser_ := a, use_radar_ := b }
          ⟨t, SensorType.LASER, [x, y]⟩ =
        some { s with
          use_laser_ := a
          use_radar_ := b
          is_initialized_ := true
          time_us_ := t
          x_ := ![x, y, 0, 0, 0]
          P_ := Matrix.diagonal
            ![s.std_laspx_ * s.std_laspx_, s.std_laspy_ * s.std_laspy_, 1, 1, 1] }) ∧
    (∀ rho phi rho_dot : α,
      UKF.ProcessMeasurement m llt { s with use_laser_ := a, use_radar_ := b }
          ⟨t, SensorType.RADAR, [rho, phi, rho_dot]⟩ =
        some { s with
          use_laser_ := a
          use_radar_ := b
          is_initialized_ := true
          time_us_ := t
          x_ := ![rho * m.cos phi, rho * m.sin phi, rho_dot, phi, 0]
          P_ := Matrix.diagonal ![s.std_radr_ * s.std_radr_, s.std_radphi_ * s.std_radphi_,
            s.std_radrd_ * s.std_radrd_, 1, 1] }) := by
  constructor
  · intro x y
    simp [UKF.ProcessMeasurement, hs, UKF.firstMeasurement, initialCovariance_eq]
  · intro rho phi rho_dot
    simp [UKF.ProcessMeasurement, hs, UKF.firstMeasurement, initialCovariance_eq]

/-- C5, on a freshly constructed filter over the reals with the direct-position
sensor switched off and a LASER measurement `[1, 2]` at timestamp `7`. -/
theorem ProcessMeasurement_first_ignores_flags_witness :
    UKF.ProcessMeasurement
        (⟨Real.cos, Real.sin, Real.sqrt, fun y x => Complex.arg ⟨x, y⟩, Real.pi, Real.pi_pos⟩ :
          Numerics ℝ)
        (fun P => Matrix.diagonal fun i => Real.sqrt (P i i))
        { UKF.ctor ⟨0, 0, 0, 0, 0, 0⟩ with use_laser_ := false, use_radar_ := true }
        ⟨7, SensorType.LASER, [1, 2]⟩ =
      some { UKF.ctor ⟨0, 0, 0, 0, 0, 0⟩ with
        use_laser_ := false
        use_radar_ := true
        is_initialized_ := true
        time_us_ := 7
        x_ := ![1, 2, 0, 0, 0]
        P_ := Matrix.diagonal ![(UKF.ctor ⟨0, 0, 0, 0, 0, 0⟩ : UKF ℝ).std_laspx_ *
            (UKF.ctor ⟨0, 0, 0, 0, 0, 0⟩ : UKF ℝ).std_laspx_,
          (UKF.ctor ⟨0, 0, 0, 0, 0, 0⟩ : UKF ℝ).std_laspy_ *
            (UKF.ctor ⟨0, 0, 0, 0, 0, 0⟩ : UKF ℝ).std_laspy_, 1, 1, 1] } :=
  (ProcessMeasurement_first_ignores_flags
    (⟨Real.cos, Real.sin, Real.sqrt, fun y x => Complex.arg ⟨x, y⟩, Real.pi, Real.pi_pos⟩ :
      Numerics ℝ)
    (fun P => Matrix.diagonal fun i => Real.sqrt (P i i))
    (UKF.ctor ⟨0, 0, 0, 0, 0, 0⟩) false true 7 rfl).1 1 2

/-- C6, refuted as stated: the difference `-pi` is returned unchanged, and `-pi` is
not strictly greater than `-pi`. -/
theorem wrapAngle_neg_pi_not_gt :
    ¬ (-Real.pi < wrapAngle
      (⟨Real.cos, Real.sin, Real.sqrt, fun y x => Complex.arg ⟨x, y⟩, Real.pi, Real.pi_pos⟩ :
        Numerics ℝ) (-Real.pi)) := by
  rw [wrapAngle_of_mem _ _ (le_refl _) (by simp; linarith [Real.pi_pos])]
  exact lt_irrefl _

/-- C6, amended: for every angle difference `d` the two loops return a value in the
closed interval `[-pi, pi]`. -/
theorem wrapAngle_mem_Icc (m : Numerics α) (d : α) :
    wrapAngle m d ∈ Set.Icc (-m.M_PI) m.M_PI :=
  wrapAngle_mem m d

/-- C7: the angle normalisation is idempotent, `wrap (wrap d) = wrap d` for every
angle difference `d`. -/
theorem wrapAngle_idempotent (m : Numerics α) (d : α) :
    wrapAngle m (wrapAngle m d) = wrapAngle m d :=
  wrapAngle_of_mem m _ (wrapAngle_mem m d).1 (wrapAngle_mem m d).2

/-- C8, refuted as stated: in `headingState` the heading `3` lies in `(-pi, pi]`;
`UpdateLidar` with the measurement `[10, 0]` returns a state whose heading is
greater than `pi`. -/
theorem UpdateLidar_heading_leaves_range :
    ∃ r, UKF.UpdateLidar
        (⟨Real.cos, Real.sin, Real.sqrt, fun y x => Complex.arg ⟨x, y⟩, Real.pi, Real.pi_pos⟩ :
          Numerics ℝ) headingState ⟨0, SensorType.LASER, [10, 0]⟩ = some r ∧
      (-Real.pi < (headingState : UKF ℝ).x_ 3 ∧ (headingState : UKF ℝ).x_ 3 ≤ Real.pi) ∧
      ¬ (-Real.pi < r.x_ 3 ∧ r.x_ 3 ≤ Real.pi) := by
  obtain ⟨r, hr, h3⟩ := headingState_update
    (⟨Real.cos, Real.sin, Real.sqrt, fun y x => Complex.arg ⟨x, y⟩, Real.pi, Real.pi_pos⟩ :
      Numerics ℝ) (by show (1 : ℝ) ≤ Real.pi; linarith [Real.pi_gt_three])
  refine ⟨r, hr, ⟨?_, ?_⟩, ?_⟩
  · simp only [headingState, Matrix.cons_val_three, Matrix.head_cons, Matrix.tail_cons]
    linarith [Real.pi_pos]
  · simp only [headingState, Matrix.cons_val_three, Matrix.head_cons, Matrix.tail_cons]
    linarith [Real.pi_gt_three]
  · rw [h3]
    intro h
    have := Real.pi_le_four
    norm_num at h
    linarith [h.2]

/-- C8, amended: the heading after `UpdateLidar` (when `S` is invertible) and after
`UpdateRadar` (when no predicted sigma point has range zero and `S` is invertible)
is the predicted heading plus the heading component of gain times innovation; it
is not wrapped again. -/
theorem update_heading_not_rewrapped (m : Numerics α) (s : UKF α) (t : Int) (ty : SensorType)
    (a b c : α) :
    ((lidarS s).det ≠ 0 →
      ∃ r, UKF.UpdateLidar m s ⟨t, ty, [a, b]⟩ = some r ∧
        r.x_ 3 = s.x_ 3 + (lidarTc m s * (lidarS s)⁻¹).mulVec
          (![a, b] - weightedMean s.weights_ (lidarZsig s.Xsig_pred_)) 3) ∧
    (∀ Z, radarZsig m s.Xsig_pred_ = some Z → (radarS m s Z).det ≠ 0 →
      ∃ r, UKF.UpdateRadar m s ⟨t, ty, [a, b, c]⟩ = some r ∧
        r.x_ 3 = s.x_ 3 + (radarTc m s Z * (radarS m s Z)⁻¹).mulVec
          (wrapComponent m 1 (![a, b, c] - weightedMean s.weights_ Z)) 3) :=
  ⟨fun hL => ⟨_, UpdateLidar_eq_some m s t ty a b hL, rfl⟩,
    fun Z hZ hR => ⟨_, UpdateRadar_eq_some m s t ty a b c Z hZ hR, rfl⟩⟩

/-- C8, amended, over the reals: on `headingState` the measurement `[10, 0]` moves the
heading from `3` to `3 + 4000/427`, and on `reversalState` the measurement `[1, 0, 0]`
moves it from `0` to `-(23100/7781) * pi`; both values lie outside `(-pi, pi]`. -/
theorem update_heading_not_rewrapped_witness :
    (∃ r, UKF.UpdateLidar
        (⟨Real.cos, Real.sin, Real.sqrt, fun y x => Complex.arg ⟨x, y⟩, Real.pi, Real.pi_pos⟩ :
          Numerics ℝ) headingState ⟨0, SensorType.LASER, [10, 0]⟩ = some r ∧
      r.x_ 3 = 3 + 4000 / 427 ∧ Real.pi < r.x_ 3) ∧
    (∃ r, UKF.UpdateRadar
        (⟨Real.cos, Real.sin, Real.sqrt, fun y x => Complex.arg ⟨x, y⟩, Real.pi, Real.pi_pos⟩ :
          Numerics ℝ)
        (reversalState
          (⟨Real.cos, Real.sin, Real.sqrt, fun y x => Complex.arg ⟨x, y⟩, Real.pi, Real.pi_pos⟩ :
            Numerics ℝ)) ⟨0, SensorType.RADAR, [1, 0, 0]⟩ = some r ∧
      r.x_ 3 = -(23100 / 7781) * Real.pi ∧ r.x_ 3 < -Real.pi) := by
  have hpi : (1 : ℝ) ≤ Real.pi := by linarith [Real.pi_gt_three]
  constructor
  · obtain ⟨r, hr, h3⟩ := (update_heading_not_rewrapped
      (⟨Real.cos, Real.sin, Real.sqrt, fun y x => Complex.arg ⟨x, y⟩, Real.pi, Real.pi_pos⟩ :
        Numerics ℝ) headingState 0 SensorType.LASER 10 0 0).1
      (by rw [headingState_S, Matrix.det_fin_two_of]; norm_num)
    rw [headingState_heading _ hpi] at h3
    refine ⟨r, hr, h3, ?_⟩
    rw [h3]
    linarith [Real.pi_le_four]
  · obtain ⟨r, hr, -⟩ := (update_heading_not_rewrapped
      (⟨Real.cos, Real.sin, Real.sqrt, fun y x => Complex.arg ⟨x, y⟩, Real.pi, Real.pi_pos⟩ :
        Numerics ℝ)
      (reversalState
        (⟨Real.cos, Real.sin, Real.sqrt, fun y x => Complex.arg ⟨x, y⟩, Real.pi, Real.pi_pos⟩ :
          Numerics ℝ)) 0 SensorType.RADAR 1 0 0).2 _
      (reversalState_radarZsig _ Real.sqrt_one Real.cos_zero Real.cos_pi
        (by show Real.cos (-Real.pi) = -1; rw [Real.cos_neg, Real.cos_pi]))
      (by rw [reversalState_radarS, Matrix.det_diagonal]; simp [Fin.prod_univ_succ])
    obtain ⟨r2, hr2, hv, -⟩ := reversalState_update
      (⟨Real.cos, Real.sin, Real.sqrt, fun y x => Complex.arg ⟨x, y⟩, Real.pi, Real.pi_pos⟩ :
        Numerics ℝ) Real.sqrt_one Real.cos_zero Real.cos_pi
      (by show Real.cos (-Real.pi) = -1; rw [Real.cos_neg, Real.cos_pi])
      0 SensorType.RADAR 1 0 0
    rw [hr] at hr2
    have e : r.x_ 3 = -(23100 / 7781) * Real.pi := by
      rw [Option.some.inj hr2, hv]
      show -(6300 / 7781) * Real.pi * (0 + 11 / 3) = -(23100 / 7781) * Real.pi
      ring
    refine ⟨r, hr, e, ?_⟩
    rw [e]
    nlinarith [Real.pi_pos]

omit [FloorRing α] in
/-- C9, refuted as stated: for the predicted sigma point `[0, 0, 1, 0, 0]` the range
is `sqrt 0 = 0` and the measurement transform divides by it. -/
theorem radarPoint_zero_range :
    radarPoint
      (⟨Real.cos, Real.sin, Real.sqrt, fun y x => Complex.arg ⟨x, y⟩, Real.pi, Real.pi_pos⟩ :
        Numerics ℝ) ![0, 0, 1, 0, 0] = none := by
  simp [radarPoint, fdiv]

omit [FloorRing α] in
/-- C9, amended: the measurement transform of `UpdateRadar` divides by the range
`sqrt(p_x^2 + p_y^2)` without a guard; it produces the range-rate
`(p_x*v1 + p_y*v2) / range` exactly when that range is not zero, and it divides by
zero otherwise. -/
theorem radarPoint_defined_iff (m : Numerics α) (p : Fin 5 → α) :
    radarPoint m p =
      if m.sqrt (p 0 * p 0 + p 1 * p 1) = 0 then none
      else some ![m.sqrt (p 0 * p 0 + p 1 * p 1), m.atan2 (p 1) (p 0),
        (p 0 * (m.cos (p 3) * p 2) + p 1 * (m.sin (p 3) * p 2)) /
          m.sqrt (p 0 * p 0 + p 1 * p 1)] := by
  by_cases h : m.sqrt (p 0 * p 0 + p 1 * p 1) = 0
  · simp [radarPoint, fdiv, h]
  · simp [radarPoint, fdiv, h]

/-- C10, evaluated at the failing state: `junkNoiseState` has a symmetric
covariance, its `Rlidar_` carries the two unequal values the constructor left
off the diagonal, and the covariance written by `UpdateLidar` is not symmetric. -/
theorem UpdateLidar_breaks_symmetry (m : Numerics α) :
    ∃ r, UKF.UpdateLidar m junkNoiseState ⟨0, SensorType.LASER, [0, 0]⟩ = some r ∧
      (junkNoiseState (α := α)).P_ᵀ = junkNoiseState.P_ ∧ r.P_ᵀ ≠ r.P_ := by
  obtain ⟨r, hr, h01, h10⟩ := junkNoiseState_update m
  refine ⟨r, hr, ?_, ?_⟩
  · simp [junkNoiseState]
  · intro h
    have h' : r.P_ 1 0 = r.P_ 0 1 := by
      conv_rhs => rw [← h]
      rfl
    rw [h01, h10] at h'
    norm_num at h'

omit [FloorRing α] in
/-- C14, evaluated on the code: the constructor writes `0.15^2 = 9/400` on the
diagonal of `Rlidar_` and `0.3^2, 0.03^2, 0.3^2` on the diagonal of `Rradar_`; an
off-diagonal entry is whatever the storage held, here the `1` found in the
storage of `Rlidar_(0, 1)`. -/
theorem ctor_noise_offdiagonal (u : Uninit α) :
    (∀ i j, (UKF.ctor u).Rlidar_ i j = if i = j then 9 / 400 else u.Rlidar i j) ∧
    (∀ i j, (UKF.ctor u).Rradar_ i j =
      if i = j then ![9 / 100, 9 / 10000, 9 / 100] i else u.Rradar i j) ∧
    (UKF.ctor (⟨0, 0, 0, 0, !![0, 1; 0, 0], 0⟩ : Uninit α)).Rlidar_ 0 1 = 1 := by
  refine ⟨?_, ?_, ?_⟩
  · intro i j
    fin_cases i <;> fin_cases j <;> simp [UKF.ctor, setCoeff] <;> norm_num
  · intro i j
    fin_cases i <;> fin_cases j <;> simp [UKF.ctor, setCoeff] <;> norm_num
  · simp [UKF.ctor, setCoeff]

omit [FloorRing α] in
/-- C16: with the `lambda_` of the constructor the spread is `c = sqrt(lambda_ + n_aug_)
= sqrt 3`; the augmented mean is the mean followed by two zeros; sigma point `0`
is the augmented mean, point `i + 1` is the mean plus `c` times column `i` of `A`
and point `i + 8` is the mean minus `c` times that column, for `i = 0..6`; the two
are symmetric about the mean. -/
theorem augmentedSigmaPoints_columns (m : Numerics α) (u : Uninit α) (x : Fin 5 → α)
    (A : Matrix (Fin 7) (Fin 7) α) (k : Fin 7) :
    m.sqrt ((UKF.ctor u).lambda_ + n_aug_) = m.sqrt 3 ∧
    augmentedMean x = ![x 0, x 1, x 2, x 3, x 4, 0, 0] ∧
    augmentedSigmaPoints m (UKF.ctor u).lambda_ (augmentedMean x) A k 0 = augmentedMean x k ∧
    ∀ i : Fin 7,
      augmentedSigmaPoints m (UKF.ctor u).lambda_ (augmentedMean x) A k ⟨i.val + 1, by omega⟩ =
        augmentedMean x k + m.sqrt 3 * A k i ∧
      augmentedSigmaPoints m (UKF.ctor u).lambda_ (augmentedMean x) A k ⟨i.val + 8, by omega⟩ =
        augmentedMean x k - m.sqrt 3 * A k i ∧
      augmentedSigmaPoints m (UKF.ctor u).lambda_ (augmentedMean x) A k ⟨i.val + 1, by omega⟩ +
        augmentedSigmaPoints m (UKF.ctor u).lambda_ (augmentedMean x) A k
          ⟨i.val + 8, by omega⟩ = 2 * augmentedMean x k := by
  have hc : (UKF.ctor u).lambda_ + n_aug_ = (3 : α) := by
    simp [UKF.ctor, n_aug_]
  refine ⟨by rw [hc], augmentedMean_eq x, augmentedSigmaPoints_zero _ _ _ _ _, fun i => ?_⟩
  rw [augmentedSigmaPoints_plus, augmentedSigmaPoints_minus, hc]
  exact ⟨rfl, rfl, by ring⟩

omit [FloorRing α] in
/-- C17: the propagated sigma point.  The position is the arc update exactly when
`|yawd| > 0.001` and the straight-line update otherwise, plus the noise terms
`0.5*nu_a*dt^2*cos(yaw)` and `0.5*nu_a*dt^2*sin(yaw)`; the speed is `v + nu_a*dt`, the
heading `yaw + yawd*dt + 0.5*nu_yawdd*dt^2`, the heading-rate `yawd + nu_yawdd*dt`.
The result is always defined: the quotient `v / yawd` is formed under the guard
only, where `yawd` is not zero. -/
theorem predictSigmaPoint_closed_form (m : Numerics α) (delta_t : α) (p : Fin 7 → α) :
    predictSigmaPoint m delta_t p = some ![
      (if |p 4| > 1 / 1000 then
          p 0 + p 2 / p 4 * (m.sin (p 3 + p 4 * delta_t) - m.sin (p 3))
        else p 0 + p 2 * delta_t * m.cos (p 3)) + 1 / 2 * p 5 * delta_t * delta_t * m.cos (p 3),
      (if |p 4| > 1 / 1000 then
          p 1 + p 2 / p 4 * (m.cos (p 3) - m.cos (p 3 + p 4 * delta_t))
        else p 1 + p 2 * delta_t * m.sin (p 3)) + 1 / 2 * p 5 * delta_t * delta_t * m.sin (p 3),
      p 2 + p 5 * delta_t,
      p 3 + p 4 * delta_t + 1 / 2 * p 6 * delta_t * delta_t,
      p 4 + p 6 * delta_t] ∧
    ¬ (|p 4| > 1 / 1000 ∧ p 4 = 0) := by
  refine ⟨predictSigmaPoint_eq m delta_t p, ?_⟩
  rintro ⟨h, h0⟩
  rw [h0, abs_zero] at h
  norm_num at h

omit [FloorRing α] in
/-- C19: for the filter as constructed (`lambda_ = -4`, weights `-4/3` and `1/6`,
`std_a_ = 3`, `std_yawdd_ = 2`), a spread `c = sqrt 3` with `c * c = 3` and a matrix `A`
with `A * A^T = P_aug`, the weighted sample covariance of the fifteen augmented
sigma points about the augmented mean is `P_aug`, the matrix with `P` in the
top-left corner, `9` and `4` on the added diagonal and `0` elsewhere. -/
theorem sigma_points_match_covariance (m : Numerics α) (u : Uninit α) (x : Fin 5 → α)
    (P : Matrix (Fin 5) (Fin 5) α) (A : Matrix (Fin 7) (Fin 7) α)
    (hc : m.sqrt 3 * m.sqrt 3 = 3)
    (hA : A * Aᵀ = augmentedCovariance P (UKF.ctor u).std_a_ (UKF.ctor u).std_yawdd_) :
    weightedOuter (UKF.ctor u).weights_
        (fun j k => augmentedSigmaPoints m (UKF.ctor u).lambda_ (augmentedMean x) A k j -
          augmentedMean x k)
        (fun j k => augmentedSigmaPoints m (UKF.ctor u).lambda_ (augmentedMean x) A k j -
          augmentedMean x k) =
      augmentedCovariance P (UKF.ctor u).std_a_ (UKF.ctor u).std_yawdd_ ∧
    augmentedCovariance P (UKF.ctor u).std_a_ (UKF.ctor u).std_yawdd_ =
      fun r c => if h : r.val < 5 ∧ c.val < 5 then P ⟨r.val, h.1⟩ ⟨c.val, h.2⟩
        else if r = 5 ∧ c = 5 then 9 else if r = 6 ∧ c = 6 then 4 else 0 := by
  have hl : (UKF.ctor u).lambda_ + n_aug_ = (3 : α) := by
    simp [UKF.ctor, n_aug_]
  constructor
  · rw [← hA]
    exact weightedOuter_sigma m _ _ (ctor_weights u) _ A (by rw [hl]; exact hc)
  · funext r c
    rw [augmentedCovariance_apply]
    simp only [UKF.ctor]
    norm_num

/-- C19, over the reals for the identity covariance, whose augmented factor is
`diag(1, 1, 1, 1, 1, 3, 2)`. -/
theorem sigma_points_match_covariance_witness :
    weightedOuter (UKF.ctor (⟨0, 0, 0, 0, 0, 0⟩ : Uninit ℝ)).weights_
        (fun j k => augmentedSigmaPoints
          (⟨Real.cos, Real.sin, Real.sqrt, fun y x => Complex.arg ⟨x, y⟩, Real.pi, Real.pi_pos⟩ :
            Numerics ℝ) (UKF.ctor (⟨0, 0, 0, 0, 0, 0⟩ : Uninit ℝ)).lambda_
          (augmentedMean ![1, 2, 3, 0, 0]) (Matrix.diagonal ![1, 1, 1, 1, 1, 3, 2]) k j -
          augmentedMean ![1, 2, 3, 0, 0] k)
        (fun j k => augmentedSigmaPoints
          (⟨Real.cos, Real.sin, Real.sqrt, fun y x => Complex.arg ⟨x, y⟩, Real.pi, Real.pi_pos⟩ :
            Numerics ℝ) (UKF.ctor (⟨0, 0, 0, 0, 0, 0⟩ : Uninit ℝ)).lambda_
          (augmentedMean ![1, 2, 3, 0, 0]) (Matrix.diagonal ![1, 1, 1, 1, 1, 3, 2]) k j -
          augmentedMean ![1, 2, 3, 0, 0] k) =
      augmentedCovariance 1 (UKF.ctor (⟨0, 0, 0, 0, 0, 0⟩ : Uninit ℝ)).std_a_
        (UKF.ctor (⟨0, 0, 0, 0, 0, 0⟩ : Uninit ℝ)).std_yawdd_ :=
  (sigma_points_match_covariance
    (⟨Real.cos, Real.sin, Real.sqrt, fun y x => Complex.arg ⟨x, y⟩, Real.pi, Real.pi_pos⟩ :
      Numerics ℝ) ⟨0, 0, 0, 0, 0, 0⟩ ![1, 2, 3, 0, 0] 1 (Matrix.diagonal ![1, 1, 1, 1, 1, 3, 2])
    (Real.mul_self_sqrt (by norm_num))
    (by
      rw [Matrix.diagonal_transpose, Matrix.diagonal_mul_diagonal]
      funext r c
      fin_cases r <;> fin_cases c <;>
        simp [augmentedCovariance, setCoeff, UKF.ctor, Matrix.diagonal, Matrix.one_apply,
          Fin.coe_ofNat_eq_mod, Fin.ext_iff] <;>
        rfl)).1

/-- C20: `Prediction(0)` maps every augmented sigma point to its first five
components, in the arc branch as in the straight-line branch, and with the
weights of the constructor it returns a state whose mean is the old mean. -/
theorem Prediction_zero_keeps_mean (m : Numerics α)
    (llt : Matrix (Fin 7) (Fin 7) α → Matrix (Fin 7) (Fin 7) α) (s : UKF α)
    (hw : ∀ i, s.weights_ i = if i = 0 then -4 / 3 else 1 / 6) :
    (∀ p : Fin 7 → α, predictSigmaPoint m 0 p = some ![p 0, p 1, p 2, p 3, p 4]) ∧
    ∃ r, UKF.Prediction m llt s 0 = some r ∧ r.x_ = s.x_ ∧
      ∀ k j, r.Xsig_pred_ k j =
        ![augmentedSigmaPoints m s.lambda_ (augmentedMean s.x_)
            (llt (augmentedCovariance s.P_ s.std_a_ s.std_yawdd_)) 0 j,
          augmentedSigmaPoints m s.lambda_ (augmentedMean s.x_)
            (llt (augmentedCovariance s.P_ s.std_a_ s.std_yawdd_)) 1 j,
          augmentedSigmaPoints m s.lambda_ (augmentedMean s.x_)
            (llt (augmentedCovariance s.P_ s.std_a_ s.std_yawdd_)) 2 j,
          augmentedSigmaPoints m s.lambda_ (augmentedMean s.x_)
            (llt (augmentedCovariance s.P_ s.std_a_ s.std_yawdd_)) 3 j,
          augmentedSigmaPoints m s.lambda_ (augmentedMean s.x_)
            (llt (augmentedCovariance s.P_ s.std_a_ s.std_yawdd_)) 4 j] k := by
  refine ⟨predictSigmaPoint_zero m, _,
    Prediction_eq_some m llt s 0 _ (fun j => predictSigmaPoint_zero m _), ?_, fun k j => rfl⟩
  exact Prediction_zero_mean m s.lambda_ s.weights_ hw s.x_ _

/-- C20, over the reals on a freshly constructed filter with mean `[1, 2, 3, 4, 5]`
and the identity covariance. -/
theorem Prediction_zero_keeps_mean_witness :
    ∃ r, UKF.Prediction
        (⟨Real.cos, Real.sin, Real.sqrt, fun y x => Complex.arg ⟨x, y⟩, Real.pi, Real.pi_pos⟩ :
          Numerics ℝ)
        (fun P => Matrix.diagonal fun i => Real.sqrt (P i i))
        (UKF.ctor ⟨![1, 2, 3, 4, 5], 1, 0, 0, 0, 0⟩) 0 = some r ∧
      r.x_ = ![1, 2, 3, 4, 5] := by
  obtain ⟨r, h1, h2, -⟩ := (Prediction_zero_keeps_mean
    (⟨Real.cos, Real.sin, Real.sqrt, fun y x => Complex.arg ⟨x, y⟩, Real.pi, Real.pi_pos⟩ :
      Numerics ℝ)
    (fun P => Matrix.diagonal fun i => Real.sqrt (P i i))
    (UKF.ctor ⟨![1, 2, 3, 4, 5], 1, 0, 0, 0, 0⟩) (ctor_weights _)).2
  exact ⟨r, h1, h2⟩

/-- C12: when the predicted measurement covariance `S` is symmetric positive
definite, the update is defined and the trace of the covariance it writes is at
most the trace of the predicted covariance, for `UpdateLidar` and for
`UpdateRadar` (whose `S` exists when no predicted sigma point has range zero). -/
theorem update_trace (m : Numerics ℝ) (s : UKF ℝ) (t : Int) (a b c : ℝ) :
    ((lidarS s).PosDef →
      ∃ r, UKF.UpdateLidar m s ⟨t, SensorType.LASER, [a, b]⟩ = some r ∧
        r.P_.trace ≤ s.P_.trace) ∧
    (∀ Z, radarZsig m s.Xsig_pred_ = some Z → (radarS m s Z).PosDef →
      ∃ r, UKF.UpdateRadar m s ⟨t, SensorType.RADAR, [a, b, c]⟩ = some r ∧
        r.P_.trace ≤ s.P_.trace) := by
  constructor
  · intro hL
    refine ⟨_, UpdateLidar_eq_some m s t _ a b hL.det_pos.ne', ?_⟩
    have := gain_form_trace_nonneg (lidarTc m s * (lidarS s)⁻¹) (lidarS s) hL
    simp only [Matrix.trace_sub]
    linarith
  · intro Z hZ hR
    refine ⟨_, UpdateRadar_eq_some m s t _ a b c Z hZ hR.det_pos.ne', ?_⟩
    have := gain_form_trace_nonneg (radarTc m s Z * (radarS m s Z)⁻¹) (radarS m s Z) hR
    simp only [Matrix.trace_sub]
    linarith

/-- C12, over the reals: `UpdateLidar` on `headingState` lowers the heading variance
from `1/3` to `1/3 - 400/1281`, `UpdateRadar` on `reversalState` lowers the speed
variance from `21` to `21 - 396900/7781`, and neither raises the trace. -/
theorem update_trace_witness :
    (∃ r, UKF.UpdateLidar
        (⟨Real.cos, Real.sin, Real.sqrt, fun y x => Complex.arg ⟨x, y⟩, Real.pi, Real.pi_pos⟩ :
          Numerics ℝ) headingState ⟨0, SensorType.LASER, [10, 0]⟩ = some r ∧
      r.P_.trace ≤ (headingState : UKF ℝ).P_.trace ∧
      (headingState : UKF ℝ).P_ 3 3 = 1 / 3 ∧ r.P_ 3 3 = 1 / 3 - 400 / 1281) ∧
    (∃ r, UKF.UpdateRadar
        (⟨Real.cos, Real.sin, Real.sqrt, fun y x => Complex.arg ⟨x, y⟩, Real.pi, Real.pi_pos⟩ :
          Numerics ℝ)
        (reversalState
          (⟨Real.cos, Real.sin, Real.sqrt, fun y x => Complex.arg ⟨x, y⟩, Real.pi, Real.pi_pos⟩ :
            Numerics ℝ)) ⟨0, SensorType.RADAR, [1, 0, 0]⟩ = some r ∧
      r.P_.trace ≤ (reversalState
          (⟨Real.cos, Real.sin, Real.sqrt, fun y x => Complex.arg ⟨x, y⟩, Real.pi, Real.pi_pos⟩ :
            Numerics ℝ)).P_.trace ∧
      (reversalState
          (⟨Real.cos, Real.sin, Real.sqrt, fun y x => Complex.arg ⟨x, y⟩, Real.pi, Real.pi_pos⟩ :
            Numerics ℝ)).P_ 2 2 = 21 ∧ r.P_ 2 2 = 21 - 396900 / 7781) := by
  have hpi : (1 : ℝ) ≤ Real.pi := by linarith [Real.pi_gt_three]
  constructor
  · have hPD : (lidarS (headingState : UKF ℝ)).PosDef := by
      have h : (!![427 / 1200, 0; 0, 9 / 400] : Matrix (Fin 2) (Fin 2) ℝ) =
          Matrix.diagonal ![427 / 1200, 9 / 400] := by
        ext i j
        fin_cases i <;> fin_cases j <;> simp
      rw [headingState_S, h]
      exact Matrix.PosDef.diagonal (fun i => by fin_cases i <;> norm_num)
    obtain ⟨r, hr, ht⟩ := (update_trace
      (⟨Real.cos, Real.sin, Real.sqrt, fun y x => Complex.arg ⟨x, y⟩, Real.pi, Real.pi_pos⟩ :
        Numerics ℝ) headingState 0 10 0 0).1 hPD
    refine ⟨r, hr, ht, ?_, ?_⟩
    · simp [headingState, Matrix.vecMulVec_apply]
    · rw [UpdateLidar_eq_some _ _ _ _ _ _ hPD.det_pos.ne'] at hr
      rw [← Option.some.inj hr]
      exact headingState_variance _ hpi
  · have hZ := reversalState_radarZsig
      (⟨Real.cos, Real.sin, Real.sqrt, fun y x => Complex.arg ⟨x, y⟩, Real.pi, Real.pi_pos⟩ :
        Numerics ℝ) Real.sqrt_one Real.cos_zero Real.cos_pi
      (by show Real.cos (-Real.pi) = -1; rw [Real.cos_neg, Real.cos_pi])
    obtain ⟨r, hr, ht⟩ := (update_trace
      (⟨Real.cos, Real.sin, Real.sqrt, fun y x => Complex.arg ⟨x, y⟩, Real.pi, Real.pi_pos⟩ :
        Numerics ℝ)
      (reversalState
        (⟨Real.cos, Real.sin, Real.sqrt, fun y x => Complex.arg ⟨x, y⟩, Real.pi, Real.pi_pos⟩ :
          Numerics ℝ)) 0 1 0 0).2 _ hZ
      (by
        rw [reversalState_radarS]
        exact Matrix.PosDef.diagonal (fun i => by fin_cases i <;> norm_num))
    refine ⟨r, hr, ht, ?_, ?_⟩
    · simp [reversalState, Matrix.vecMulVec_apply]
      norm_num
    · obtain ⟨r2, hr2, -, hv⟩ := reversalState_update
        (⟨Real.cos, Real.sin, Real.sqrt, fun y x => Complex.arg ⟨x, y⟩, Real.pi, Real.pi_pos⟩ :
          Numerics ℝ) Real.sqrt_one Real.cos_zero Real.cos_pi
        (by show Real.cos (-Real.pi) = -1; rw [Real.cos_neg, Real.cos_pi])
        0 SensorType.RADAR 1 0 0
      rw [hr] at hr2
      rw [Option.some.inj hr2]
      exact hv

/-- C18: for the state `p` returned by `Prediction`, the predicted measurement of
`UpdateLidar` is `H x` (the first two components of the mean), its `S` is
`H P H^T + Rlidar_` (the top-left 2x2 block of `P` plus the noise), its `Tc` is `P H^T`
(the first two columns of `P`), and `UpdateLidar` returns what the linear Kalman
update with `H = [I_2 | 0]` returns: mean `x + K (z - H x)` and covariance
`P - K S K^T` with `K = P H^T S^-1`. -/
theorem UpdateLidar_refines (m : Numerics α)
    (llt : Matrix (Fin 7) (Fin 7) α → Matrix (Fin 7) (Fin 7) α) (s : UKF α) (delta_t : α) :
    ∃ p, UKF.Prediction m llt s delta_t = some p ∧
      weightedMean p.weights_ (lidarZsig p.Xsig_pred_) = lidarH.mulVec p.x_ ∧
      lidarH.mulVec p.x_ = ![p.x_ 0, p.x_ 1] ∧
      lidarS p = lidarH * p.P_ * lidarHᵀ + p.Rlidar_ ∧
      lidarH * p.P_ * lidarHᵀ = !![p.P_ 0 0, p.P_ 0 1; p.P_ 1 0, p.P_ 1 1] ∧
      lidarTc m p = p.P_ * lidarHᵀ ∧
      p.P_ * lidarHᵀ = Matrix.of (fun i => ![p.P_ i 0, p.P_ i 1]) ∧
      ∀ (t : Int) (ty : SensorType) (a b : α),
        UKF.UpdateLidar m p ⟨t, ty, [a, b]⟩ =
          (linearKalmanUpdate lidarH p.Rlidar_ p.x_ p.P_ ![a, b]).map
            fun r => { p with x_ := r.1, P_ := r.2 } := by
  obtain ⟨p, hp⟩ := Prediction_isSome m llt s delta_t
  obtain ⟨hx, hP⟩ := Prediction_consistent m llt s p delta_t hp
  obtain ⟨hz, hS, hT⟩ := lidar_linear m p hx hP
  refine ⟨p, hp, by rw [hz, lidarH_mulVec], lidarH_mulVec _, by rw [hS, lidarH_mul_mul],
    lidarH_mul_mul _, by rw [hT, mul_lidarH_transpose], mul_lidarH_transpose _, ?_⟩
  intro t ty a b
  have hS' : lidarS p = lidarH * p.P_ * lidarHᵀ + p.Rlidar_ := by rw [hS, lidarH_mul_mul]
  have hT' : lidarTc m p = p.P_ * lidarHᵀ := by rw [hT, mul_lidarH_transpose]
  have hz' : weightedMean p.weights_ (lidarZsig p.Xsig_pred_) = lidarH.mulVec p.x_ := by
    rw [hz, lidarH_mulVec]
  simp only [UKF.UpdateLidar, linearKalmanUpdate, hS', hT', hz', List.getElem?_cons_zero,
    List.getElem?_cons_succ, Option.bind_eq_bind, Option.some_bind, Option.map_eq_map]
  cases inverse (lidarH * p.P_ * lidarHᵀ + p.Rlidar_) <;> rfl

/-- C13, refuted as stated: `turnState` with both process-noise standard
deviations `0` has the mean `[0, 0, 3, 0, 0]` (heading-rate `0`) and a covariance with
factor `turnFactor`; for `dt = 1` the closed-form displacement gives `x = 0 + 3*1*cos 0`,
while the mean returned by `Prediction(1)` has another `x` component. -/
theorem Prediction_mean_off_closed_form :
    (turnState 
      (⟨Real.cos, Real.sin, Real.sqrt, fun y x => Complex.arg ⟨x, y⟩, Real.pi, Real.pi_pos⟩ :
        Numerics ℝ) 0 0).std_a_ = 0 ∧ (turnState 
      (⟨Real.cos, Real.sin, Real.sqrt, fun y x => Complex.arg ⟨x, y⟩, Real.pi, Real.pi_pos⟩ :
        Numerics ℝ) 0 0).std_yawdd_ = 0 ∧
    (turnState 
      (⟨Real.cos, Real.sin, Real.sqrt, fun y x => Complex.arg ⟨x, y⟩, Real.pi, Real.pi_pos⟩ :
        Numerics ℝ) 0 0).x_ = ![0, 0, 3, 0, 0] ∧
    turnFactor 
      (⟨Real.cos, Real.sin, Real.sqrt, fun y x => Complex.arg ⟨x, y⟩, Real.pi, Real.pi_pos⟩ :
        Numerics ℝ) 0 0 * (turnFactor 
      (⟨Real.cos, Real.sin, Real.sqrt, fun y x => Complex.arg ⟨x, y⟩, Real.pi, Real.pi_pos⟩ :
        Numerics ℝ) 0 0)ᵀ =
      augmentedCovariance (turnState 
      (⟨Real.cos, Real.sin, Real.sqrt, fun y x => Complex.arg ⟨x, y⟩, Real.pi, Real.pi_pos⟩ :
        Numerics ℝ) 0 0).P_ (turnState 
      (⟨Real.cos, Real.sin, Real.sqrt, fun y x => Complex.arg ⟨x, y⟩, Real.pi, Real.pi_pos⟩ :
        Numerics ℝ) 0 0).std_a_
        (turnState 
      (⟨Real.cos, Real.sin, Real.sqrt, fun y x => Complex.arg ⟨x, y⟩, Real.pi, Real.pi_pos⟩ :
        Numerics ℝ) 0 0).std_yawdd_ ∧
    ∃ r, UKF.Prediction 
      (⟨Real.cos, Real.sin, Real.sqrt, fun y x => Complex.arg ⟨x, y⟩, Real.pi, Real.pi_pos⟩ :
        Numerics ℝ) (fun _ => turnFactor 
      (⟨Real.cos, Real.sin, Real.sqrt, fun y x => Complex.arg ⟨x, y⟩, Real.pi, Real.pi_pos⟩ :
        Numerics ℝ) 0 0) (turnState 
      (⟨Real.cos, Real.sin, Real.sqrt, fun y x => Complex.arg ⟨x, y⟩, Real.pi, Real.pi_pos⟩ :
        Numerics ℝ) 0 0) 1 = some r ∧
      r.x_ 0 ≠ 0 + 3 * 1 * Real.cos 0 := by
  refine ⟨rfl, rfl, rfl, turnFactor_mul_transpose _ 0 0, ?_⟩
  obtain ⟨r, hr, hx, -⟩ := turn_prediction 
      (⟨Real.cos, Real.sin, Real.sqrt, fun y x => Complex.arg ⟨x, y⟩, Real.pi, Real.pi_pos⟩ :
        Numerics ℝ) 0 0
    (Real.mul_self_sqrt (by norm_num)) Real.cos_zero Real.cos_pi
    (by show Real.cos (-Real.pi) = -1; rw [Real.cos_neg, Real.cos_pi])
  refine ⟨r, hr, ?_⟩
  rw [hx, Real.cos_zero]
  norm_num

/-- C13, amended: with both process-noise standard deviations `0`, heading-rate `0` in
the prior mean and any `dt`, the central sigma point is propagated to the
closed-form straight-line displacement, and the mean returned by `Prediction(dt)`
is that displacement when the covariance has no heading and no heading-rate
variance (`P_(3,3) = P_(4,4) = 0`) and the factorisation returns a factor of the
augmented covariance. -/
theorem Prediction_zero_noise (m : Numerics α)
    (llt : Matrix (Fin 7) (Fin 7) α → Matrix (Fin 7) (Fin 7) α) (s : UKF α) (delta_t : α)
    (hw : ∀ i, s.weights_ i = if i = 0 then -4 / 3 else 1 / 6)
    (hsa : s.std_a_ = 0) (hsy : s.std_yawdd_ = 0) (hyd : s.x_ 4 = 0)
    (h3 : s.P_ 3 3 = 0) (h4 : s.P_ 4 4 = 0)
    (hA : llt (augmentedCovariance s.P_ s.std_a_ s.std_yawdd_) *
      (llt (augmentedCovariance s.P_ s.std_a_ s.std_yawdd_))ᵀ =
        augmentedCovariance s.P_ s.std_a_ s.std_yawdd_) :
    predictSigmaPoint m delta_t (augmentedMean s.x_) =
      some ![s.x_ 0 + s.x_ 2 * delta_t * m.cos (s.x_ 3),
        s.x_ 1 + s.x_ 2 * delta_t * m.sin (s.x_ 3), s.x_ 2, s.x_ 3, 0] ∧
    ∃ r, UKF.Prediction m llt s delta_t = some r ∧
      r.x_ = ![s.x_ 0 + s.x_ 2 * delta_t * m.cos (s.x_ 3),
        s.x_ 1 + s.x_ 2 * delta_t * m.sin (s.x_ 3), s.x_ 2, s.x_ 3, 0] := by
  have ha : ¬ (|(0 : α)| > 1 / 1000) := by
    rw [abs_zero]; norm_num
  have e3 : augmentedMean s.x_ 3 = s.x_ 3 := rfl
  have e4 : augmentedMean s.x_ 4 = 0 := hyd
  have e5 : augmentedMean s.x_ 5 = 0 := rfl
  have e6 : augmentedMean s.x_ 6 = 0 := rfl
  have e0 : augmentedMean s.x_ 0 = s.x_ 0 := rfl
  have e1 : augmentedMean s.x_ 1 = s.x_ 1 := rfl
  have e2 : augmentedMean s.x_ 2 = s.x_ 2 := rfl
  constructor
  · rw [predictSigmaPoint_eq]
    simp only [e0, e1, e2, e3, e4, e5, e6, if_neg ha]
    simp
  set A := llt (augmentedCovariance s.P_ s.std_a_ s.std_yawdd_) with hAdef
  set X := augmentedSigmaPoints m s.lambda_ (augmentedMean s.x_) A with hXdef
  have d3 : augmentedCovariance s.P_ s.std_a_ s.std_yawdd_ 3 3 = s.P_ 3 3 := rfl
  have d4 : augmentedCovariance s.P_ s.std_a_ s.std_yawdd_ 4 4 = s.P_ 4 4 := rfl
  have d5 : augmentedCovariance s.P_ s.std_a_ s.std_yawdd_ 5 5 = s.std_a_ * s.std_a_ := rfl
  have d6 : augmentedCovariance s.P_ s.std_a_ s.std_yawdd_ 6 6 = s.std_yawdd_ * s.std_yawdd_ :=
    rfl
  have r3 : ∀ i, A 3 i = 0 := factor_row_zero A _ hA 3 (by rw [d3, h3])
  have r4 : ∀ i, A 4 i = 0 := factor_row_zero A _ hA 4 (by rw [d4, h4])
  have r5 : ∀ i, A 5 i = 0 := factor_row_zero A _ hA 5 (by rw [d5, hsa, mul_zero])
  have r6 : ∀ i, A 6 i = 0 := factor_row_zero A _ hA 6 (by rw [d6, hsy, mul_zero])
  have x3 : ∀ j, X 3 j = s.x_ 3 := fun j =>
    (augmentedSigmaPoints_of_row_zero m _ _ A 3 r3 j).trans e3
  have x4 : ∀ j, X 4 j = 0 := fun j =>
    (augmentedSigmaPoints_of_row_zero m _ _ A 4 r4 j).trans e4
  have x5 : ∀ j, X 5 j = 0 := fun j =>
    (augmentedSigmaPoints_of_row_zero m _ _ A 5 r5 j).trans e5
  have x6 : ∀ j, X 6 j = 0 := fun j =>
    (augmentedSigmaPoints_of_row_zero m _ _ A 6 r6 j).trans e6
  have hg : ∀ j, predictSigmaPoint m delta_t (fun k => X k j) =
      some ![X 0 j + X 2 j * delta_t * m.cos (s.x_ 3),
        X 1 j + X 2 j * delta_t * m.sin (s.x_ 3), X 2 j, s.x_ 3, 0] := by
    intro j
    rw [predictSigmaPoint_eq]
    simp only [x3, x4, x5, x6, if_neg ha]
    simp
  have hm := weightedMean_sigma m s.lambda_ s.weights_ hw (augmentedMean s.x_) A
  have m0 : ∑ j, s.weights_ j * X 0 j = s.x_ 0 := congrFun hm 0
  have m1 : ∑ j, s.weights_ j * X 1 j = s.x_ 1 := congrFun hm 1
  have m2 : ∑ j, s.weights_ j * X 2 j = s.x_ 2 := congrFun hm 2
  have hs := weights_sum s.weights_ hw
  refine ⟨_, Prediction_eq_some m llt s delta_t _ hg, ?_⟩
  funext k
  fin_cases k
  · show ∑ j, s.weights_ j * (X 0 j + X 2 j * delta_t * m.cos (s.x_ 3)) = _
    simp only [mul_add, Finset.sum_add_distrib, ← mul_assoc, ← Finset.sum_mul, m0, m2]
    rfl
  · show ∑ j, s.weights_ j * (X 1 j + X 2 j * delta_t * m.sin (s.x_ 3)) = _
    simp only [mul_add, Finset.sum_add_distrib, ← mul_assoc, ← Finset.sum_mul, m1, m2]
    rfl
  · exact m2
  · show ∑ j, s.weights_ j * s.x_ 3 = s.x_ 3
    rw [← Finset.sum_mul, hs, one_mul]
  · show ∑ j, s.weights_ j * (0 : α) = 0
    simp

/-- C13, amended, over the reals: mean `[1, 2, 3, 0, 0]`, covariance `diag(1, 1, 1, 0, 0)`
with factor `diag(1, 1, 1, 0, 0, 0, 0)`, `dt = 2`. -/
theorem Prediction_zero_noise_witness :
    ∃ r, UKF.Prediction 
      (⟨Real.cos, Real.sin, Real.sqrt, fun y x => Complex.arg ⟨x, y⟩, Real.pi, Real.pi_pos⟩ :
        Numerics ℝ) (fun _ => Matrix.diagonal ![1, 1, 1, 0, 0, 0, 0])
        { UKF.ctor ⟨![1, 2, 3, 0, 0], Matrix.diagonal ![1, 1, 1, 0, 0], 0, 0, 0, 0⟩ with
          std_a_ := 0, std_yawdd_ := 0 } 2 = some r ∧
      r.x_ = ![1 + 3 * 2 * Real.cos 0, 2 + 3 * 2 * Real.sin 0, 3, 0, 0] :=
  (Prediction_zero_noise 
      (⟨Real.cos, Real.sin, Real.sqrt, fun y x => Complex.arg ⟨x, y⟩, Real.pi, Real.pi_pos⟩ :
        Numerics ℝ) (fun _ => Matrix.diagonal ![1, 1, 1, 0, 0, 0, 0])
    { UKF.ctor ⟨![1, 2, 3, 0, 0], Matrix.diagonal ![1, 1, 1, 0, 0], 0, 0, 0, 0⟩ with
      std_a_ := 0, std_yawdd_ := 0 } 2
    (ctor_weights (⟨![1, 2, 3, 0, 0], Matrix.diagonal ![1, 1, 1, 0, 0], 0, 0, 0, 0⟩ : Uninit ℝ))
    rfl rfl rfl
    (by simp [UKF.ctor]) (by simp [UKF.ctor])
    (by
      rw [Matrix.diagonal_transpose, Matrix.diagonal_mul_diagonal]
      ext r c
      rw [augmentedCovariance_apply]
      fin_cases r <;> fin_cases c <;>
        simp [UKF.ctor, Matrix.diagonal, Fin.coe_ofNat_eq_mod, Fin.ext_iff] <;> rfl)).2

end Claims
